import Mathlib

/-!
Distinguished-name parsing and public-key reconstruction in
`lib/pkcs11_cert_common.c`.

A shallow embedding of `parse_name` (and of its callers
`pkcs11_DN_new_from_string` and `pkcs11_X509_check_DN`) and of the three
builders `pkcs11_SPKI_from_RSA`, `pkcs11_SPKI_from_DSA` and
`pkcs11_SPKI_from_EC`, followed by the properties that are established on
them.

Conventions of the embedding.

* A C string is the list of its characters before the terminating NUL, so
  `*sp` being zero is the list being empty.
* The copy buffer `buf` is represented by the strings written into it; the
  write pointer `bp` is kept as the number of bytes written so far.
* The arrays `ne_types`, `ne_values` and `mval` are lists whose position `i`
  is cell `i`; a cell of `mval` that was never written holds `none`.
* Memory allocation in `parse_name` (`OPENSSL_malloc`, `X509_NAME_new`) is
  assumed to succeed.
* In the key builders every OpenSSL call may fail; a builder is described by
  the state of its local variables when the `err:` label is reached, and by
  the record of the objects it created, freed or moved into another object.
-/

namespace Pkcs11

deriving instance DecidableEq for Except

/-- The places where `parse_name` leaves through `goto error`, named after the
diagnostic printed there.  `typeEndOfString k` carries the element number
printed by line 128.  `uninitialisedRead` stands for a read of an array cell
that no statement wrote. -/
inductive ParseError where
  | noLeadingSlash
  | escapeAtEnd
  | typeEndOfString (ne_num : Nat)
  | uninitialisedRead
  | addEntryFailed
  | noValuableField
deriving DecidableEq, Repr

/-- Local state of the tokenizing loop of `parse_name` (lines 99-163). -/
structure TokState where
  ne_types : List (List Char)
  ne_values : List (List Char)
  mval : List (Option Int)
  ne_num : Nat
  bp : Nat
deriving DecidableEq, Repr

/-- Store `v` into cell `i` of an `int` array; cells skipped over stay
unwritten. -/
def writeAt (a : List (Option Int)) (i : Nat) (v : Int) : List (Option Int) :=
  if i < a.length then a.set i (some v)
  else a ++ List.replicate (i - a.length) none ++ [some v]

/-- The statement `*bp++ = c`. -/
def TokState.putc (st : TokState) : TokState :=
  { st with bp := st.bp + 1 }

/-- Lines 119-120: the type string is closed by its terminator; cell
`ne_types[ne_num]` now designates the complete label `ty`. -/
def TokState.endType (st : TokState) (ty : List Char) : TokState :=
  { st with bp := st.bp + 1, ne_types := st.ne_types ++ [ty] }

/-- Lines 161-162: the value string is closed by its terminator and `ne_num`
is incremented; cell `ne_values[ne_num]` designates the value `v`. -/
def TokState.endValue (st : TokState) (v : List Char) : TokState :=
  { st with bp := st.bp + 1, ne_values := st.ne_values ++ [v], ne_num := st.ne_num + 1 }

/-- Lines 148 and 155: `mval[ne_num+1] = flag`. -/
def TokState.setNext (st : TokState) (flag : Int) : TokState :=
  { st with mval := writeAt st.mval (st.ne_num + 1) flag }

mutual
/-- The loop collecting a type (lines 103-130).  `ty` holds the characters of
the current label copied so far.  The loop is left at the end of the string or
after an unescaped `=`; in both cases line 126 then tests `*sp`, and reports
`ne_num` when the string has ended. -/
def collectType (multirdn : Bool) (st : TokState) (ty : List Char) :
    List Char → Except (ParseError × TokState) TokState
  | [] => .error (.typeEndOfString st.ne_num, st)
  | c :: sp =>
    if c = '\\' then
      match sp with
      | [] => .error (.escapeAtEnd, st)
      | c' :: sp' => collectType multirdn st.putc (ty ++ [c']) sp'
    else if c = '=' then
      match sp with
      | [] => .error (.typeEndOfString st.ne_num, st.endType ty)
      | c' :: sp' => collectValue multirdn (st.endType ty) [] (c' :: sp')
    else collectType multirdn st.putc (ty ++ [c]) sp
/-- The loop collecting a value (lines 131-162), followed by the test of the
enclosing `while (*sp)`.  `v` holds the characters of the current value
copied so far.  The loop is left at the end of the string, after an unescaped
`/`, or, when `multirdn` is set, after an unescaped `+`; the last two write
the flag of the next element first. -/
def collectValue (multirdn : Bool) (st : TokState) (v : List Char) :
    List Char → Except (ParseError × TokState) TokState
  | [] => .ok (st.endValue v)
  | c :: sp =>
    if c = '\\' then
      match sp with
      | [] => .error (.escapeAtEnd, st)
      | c' :: sp' => collectValue multirdn st.putc (v ++ [c']) sp'
    else if c = '/' then
      match sp with
      | [] => .ok ((st.setNext 0).endValue v)
      | c' :: sp' => collectType multirdn ((st.setNext 0).endValue v) [] (c' :: sp')
    else if c = '+' ∧ multirdn = true then
      match sp with
      | [] => .ok ((st.setNext (-1)).endValue v)
      | c' :: sp' => collectType multirdn ((st.setNext (-1)).endValue v) [] (c' :: sp')
    else collectValue multirdn st.putc (v ++ [c]) sp
end

/-- State at line 99, after `mval[ne_num] = 0` with `ne_num = 0`. -/
def TokState.init : TokState :=
  { ne_types := [], ne_values := [], mval := writeAt [] 0 0, ne_num := 0, bp := 0 }

/-- State before line 99: nothing written. -/
def TokState.blank : TokState :=
  { ne_types := [], ne_values := [], mval := [], ne_num := 0, bp := 0 }

/-- The test of the enclosing `while (*sp)` at line 101, entered with the
state `st`. -/
def nameLoop (multirdn : Bool) (st : TokState) (sp : List Char) :
    Except (ParseError × TokState) TokState :=
  match sp with
  | [] => .ok st
  | c :: sp' => collectType multirdn st [] (c :: sp')

/-- Lines 91-163 of `parse_name`: the test of the leading `/` (an empty
subject has the terminator in its place), the initial `mval[0] = 0`, and the
tokenizing loop. -/
def tokenize (multirdn : Bool) (subject : List Char) :
    Except (ParseError × TokState) TokState :=
  match subject with
  | [] => .error (.noLeadingSlash, TokState.blank)
  | c :: sp =>
    if c = '/' then nameLoop multirdn TokState.init sp
    else .error (.noLeadingSlash, TokState.blank)

/-- One element of the parsed list: cells `i` of the three arrays. -/
structure NameElement where
  type_label : List Char
  value : List Char
  mval : Int
deriving DecidableEq, Repr

/-- The flag of an element is set when its `mval` cell is not zero. -/
def NameElement.multivalued (e : NameElement) : Bool :=
  decide (e.mval ≠ 0)

/-- Read cell `i` of the `mval` array; `none` when the cell was never
written. -/
def TokState.readMval (st : TokState) (i : Nat) : Option Int :=
  (st.mval[i]?).join

/-- Element `i` as the insertion loops read it: `ne_types[i]`, `ne_values[i]`
and `mval[i]`. -/
def TokState.element (st : TokState) (i : Nat) : Option NameElement :=
  match st.ne_types[i]?, st.ne_values[i]?, st.readMval i with
  | some ty, some v, some f => some ⟨ty, v, f⟩
  | _, _, _ => none

/-- The elements at indices `0 .. ne_num-1`, in parse order; `none` when one
of the cells read was never written. -/
def TokState.elements (st : TokState) : Option (List NameElement) :=
  (List.range st.ne_num).mapM st.element

/-- The parsed elements of a subject string, `none` when tokenizing fails. -/
def parsedElements (multirdn : Bool) (subject : List Char) : Option (List NameElement) :=
  match tokenize multirdn subject with
  | .ok st => st.elements
  | .error _ => none

/-- One call of `X509_NAME_add_entry_by_NID`, with the arguments it was given.
-/
structure X509_NAME_ENTRY where
  nid : Int
  chtype : Int
  value : List Char
  loc : Int
  set : Int
deriving DecidableEq, Repr

/-- An `X509_NAME` under construction is represented by the sequence of the
entries added to it so far, in the order of the calls. -/
abbrev X509_NAME := List X509_NAME_ENTRY

/-- The OpenSSL primitives `parse_name` depends on: the registry of attribute
names, and whether `X509_NAME_add_entry_by_NID` accepts an entry. -/
structure OpenSSL where
  OBJ_txt2nid : List Char → Int
  add_entry_ok : X509_NAME → X509_NAME_ENTRY → Bool

/-- OpenSSL's `NID_undef`. -/
def NID_undef : Int := 0

/-- OpenSSL's `MBSTRING_UTF8`. -/
def MBSTRING_UTF8 : Int := 0x1000

/-- The call `X509_NAME_add_entry_by_NID(n, nid, chtype, value, -1, loc, set)`:
`none` when the primitive returns 0, otherwise the name with the entry
recorded. -/
def X509_NAME_add_entry_by_NID (lib : OpenSSL) (n : X509_NAME) (nid chtype : Int)
    (value : List Char) (loc set : Int) : Option X509_NAME :=
  if lib.add_entry_ok n ⟨nid, chtype, value, loc, set⟩ = true then
    some (n ++ [⟨nid, chtype, value, loc, set⟩])
  else none

/-- The body shared by the two insertion loops (lines 178-199 and 208-229),
run for index `i` on the pair `(n, actual_entries)`. -/
def addStep (lib : OpenSSL) (chtype : Int) (st : TokState) (acc : X509_NAME × Nat)
    (i : Nat) : Except ParseError (X509_NAME × Nat) :=
  match st.ne_types[i]? with
  | none => .error .uninitialisedRead
  | some ty =>
    if lib.OBJ_txt2nid ty = NID_undef then .ok acc
    else
      match st.ne_values[i]? with
      | none => .error .uninitialisedRead
      | some v =>
        if v = [] then .ok acc
        else
          match st.readMval i with
          | none => .error .uninitialisedRead
          | some f =>
            match X509_NAME_add_entry_by_NID lib acc.1 (lib.OBJ_txt2nid ty) chtype v (-1) f with
            | none => .error .addEntryFailed
            | some n => .ok (n, acc.2 + 1)

/-- The indices visited by the insertion loop: `ne_num-1` down to `0` when
`reverse` is false (line 176), `0` up to `ne_num-1` otherwise (line 206). -/
def loopIndices (ne_num : Nat) (reverse : Bool) : List Nat :=
  if reverse = false then (List.range ne_num).reverse else List.range ne_num

/-- The function `parse_name`: the result is the name built, or the place
where the function left through `goto error` and returned `NULL`. -/
def parse_name (lib : OpenSSL) (subject : List Char) (chtype : Int)
    (multirdn reverse : Bool) : Except ParseError X509_NAME :=
  match tokenize multirdn subject with
  | .error (e, _) => .error e
  | .ok st =>
    match (loopIndices st.ne_num reverse).foldlM (addStep lib chtype st) ([], 0) with
    | .error e => .error e
    | .ok (n, actual_entries) =>
      if actual_entries = 0 then .error .noValuableField else .ok n

/-- The function `pkcs11_DN_new_from_string`. -/
def pkcs11_DN_new_from_string (lib : OpenSSL) (subject : List Char) (chtype : Int)
    (multirdn reverse : Bool) : Except ParseError X509_NAME :=
  parse_name lib subject chtype multirdn reverse

/-- The function `pkcs11_X509_check_DN`. -/
def pkcs11_X509_check_DN (lib : OpenSSL) (subject : List Char) : Bool :=
  match parse_name lib subject MBSTRING_UTF8 false false with
  | .ok _ => true
  | .error _ => false

/-- The error taxonomy of the specification. -/
inductive ErrorKind where
  | MalformedInput
  | EmptyResult
  | Other
deriving DecidableEq, Repr

/-- Classification of the exits of `parse_name` in the taxonomy of the
specification: a missing leading `/`, a dangling escape and an unterminated
type field are `MalformedInput`; no usable element is `EmptyResult`. -/
def ParseError.kind : ParseError → ErrorKind
  | .noLeadingSlash => .MalformedInput
  | .escapeAtEnd => .MalformedInput
  | .typeEndOfString _ => .MalformedInput
  | .noValuableField => .EmptyResult
  | .addEntryFailed => .Other
  | .uninitialisedRead => .Other

/-- A small registry used in examples, with OpenSSL's numbers for `CN`, `C`,
`L`, `ST`, `O` and `OU`; every entry is accepted. -/
def sampleLib : OpenSSL where
  OBJ_txt2nid := fun ty =>
    if ty = "CN".toList then 13
    else if ty = "C".toList then 14
    else if ty = "L".toList then 15
    else if ty = "ST".toList then 16
    else if ty = "O".toList then 17
    else if ty = "OU".toList then 18
    else NID_undef
  add_entry_ok := fun _ _ => true

/-- The characters designated by a field as it is written in the subject:
every backslash is dropped and the character after it is kept. -/
def unescape : List Char → List Char
  | [] => []
  | c :: r =>
    if c = '\\' then
      match r with
      | [] => []
      | c' :: r' => c' :: unescape r'
    else c :: unescape r

/-- A field as written in the subject: it does not end in the middle of an
escape, and no character satisfying `stop` occurs in it unescaped. -/
def rawField (stop : Char → Bool) : List Char → Bool
  | [] => true
  | c :: r =>
    if c = '\\' then
      match r with
      | [] => false
      | _ :: r' => rawField stop r'
    else !stop c && rawField stop r

/-- The character that ends a type field when unescaped. -/
def typeStop (c : Char) : Bool := decide (c = '=')

/-- The characters that end a value field when unescaped. -/
def valueStop (multirdn : Bool) (c : Char) : Bool :=
  decide (c = '/') || (decide (c = '+') && multirdn)

/-- Advance `bp` by `k` bytes. -/
def TokState.putn (st : TokState) (k : Nat) : TokState :=
  { st with bp := st.bp + k }

/-- The flag written for the element that follows the separator `sep`:
`0` after `/` (line 148), `-1` after `+` (line 155). -/
def sepFlag (sep : Char) : Int := if sep = '/' then 0 else -1

/-- A name element as written in the subject, together with the separator
that follows it: `type=value` then `/` or `+`. -/
structure RawElement where
  type : List Char
  value : List Char
  sep : Char
deriving DecidableEq, Repr

/-- The text of a raw element. -/
def RawElement.render (e : RawElement) : List Char :=
  e.type ++ '=' :: (e.value ++ [e.sep])

/-- A raw element is well formed when its type has no unescaped `=`, its value
has no unescaped separator, neither ends inside an escape, and the character
after the value is a separator (`+` only when multi-valued RDNs are allowed).
-/
def RawElement.wf (multirdn : Bool) (e : RawElement) : Bool :=
  rawField typeStop e.type && rawField (valueStop multirdn) e.value && valueStop multirdn e.sep

/-- The last element of a subject that does not end with a separator:
`type=value` with a value that is not empty. -/
structure RawLast where
  type : List Char
  value : List Char
deriving DecidableEq, Repr

/-- The text of a last element. -/
def RawLast.render (e : RawLast) : List Char :=
  e.type ++ '=' :: e.value

/-- Well-formedness of a last element. -/
def RawLast.wf (multirdn : Bool) (e : RawLast) : Bool :=
  rawField typeStop e.type && rawField (valueStop multirdn) e.value && decide (e.value ≠ [])

/-- The text of the optional last element. -/
def renderLast : Option RawLast → List Char
  | none => []
  | some e => e.render

/-- The text of a subject made of the given elements: the leading `/`, the
elements that are followed by a separator, and possibly a last element that
runs to the end of the string. -/
def renderSubject (es : List RawElement) (last : Option RawLast) : List Char :=
  '/' :: (es.flatMap RawElement.render ++ renderLast last)

/-- The elements a subject stands for: each element carries the flag set by
the separator before it, the first one carries `flag`. -/
def specElements (flag : Int) : List RawElement → Option RawLast → List NameElement
  | [], none => []
  | [], some e => [⟨unescape e.type, unescape e.value, flag⟩]
  | e :: es, last =>
    ⟨unescape e.type, unescape e.value, flag⟩ :: specElements (sepFlag e.sep) es last

/-- State after a complete element followed by a separator was read from the
loop head. -/
def TokState.push (st : TokState) (e : RawElement) : TokState :=
  ((((st.putn (unescape e.type).length).endType (unescape e.type)).putn
    (unescape e.value).length).setNext (sepFlag e.sep)).endValue (unescape e.value)

/-- State after a last element was read from the loop head. -/
def TokState.pushLast (st : TokState) (e : RawLast) : TokState :=
  (((st.putn (unescape e.type).length).endType (unescape e.type)).putn
    (unescape e.value).length).endValue (unescape e.value)

/-- State reached from the loop head `st` by reading the given elements. -/
def TokState.final (st : TokState) (es : List RawElement) (last : Option RawLast) : TokState :=
  match last with
  | none => es.foldl TokState.push st
  | some e => (es.foldl TokState.push st).pushLast e

/-- At the loop head the arrays hold the elements `es` read so far, and cell
`ne_num` of `mval` holds the flag `f` of the element to come. -/
def AtHead (st : TokState) (es : List NameElement) (f : Int) : Prop :=
  st.ne_types = es.map (fun e => e.type_label) ∧ st.ne_values = es.map (fun e => e.value) ∧
    st.mval = es.map (fun e => some e.mval) ++ [some f] ∧ st.ne_num = es.length

/-- The arrays hold the elements `es` in cells `0 .. ne_num-1`. -/
def Holds (st : TokState) (es : List NameElement) : Prop :=
  st.ne_types = es.map (fun e => e.type_label) ∧ st.ne_values = es.map (fun e => e.value) ∧
    st.ne_num = es.length ∧ ∃ tl, st.mval = es.map (fun e => some e.mval) ++ tl

/-- An element survives resolution when its type label is known to the
registry and its value is not empty. -/
def survives (lib : OpenSSL) (e : NameElement) : Bool :=
  decide (lib.OBJ_txt2nid e.type_label ≠ NID_undef) && decide (e.value ≠ [])

/-- The entry added for an element: its identifier, its own value, position
`-1` (the tail), and its own `mval` flag as the `set` argument. -/
def entryOf (lib : OpenSSL) (chtype : Int) (e : NameElement) : X509_NAME_ENTRY :=
  ⟨lib.OBJ_txt2nid e.type_label, chtype, e.value, -1, e.mval⟩

/-- The effect of the loop body on one element. -/
def addElem (lib : OpenSSL) (chtype : Int) (acc : X509_NAME × Nat) (e : NameElement) :
    Except ParseError (X509_NAME × Nat) :=
  if survives lib e = true then
    match X509_NAME_add_entry_by_NID lib acc.1 (lib.OBJ_txt2nid e.type_label) chtype e.value (-1)
        e.mval with
    | none => .error .addEntryFailed
    | some n => .ok (n, acc.2 + 1)
  else .ok acc

/-- The order in which the insertion loop visits the parsed elements. -/
def visitOrder (reverse : Bool) (es : List NameElement) : List NameElement :=
  if reverse = false then es.reverse else es

/-- Escaping of a whole string: every character is prefixed with a
backslash. -/
def esc (s : List Char) : List Char :=
  s.flatMap (fun c => ['\\', c])

/-- Rename the characters of an element. -/
def NameElement.mapChars (f : Char → Char) (e : NameElement) : NameElement :=
  ⟨e.type_label.map f, e.value.map f, e.mval⟩

/-- Rename the characters of the strings held by a state. -/
def TokState.mapChars (f : Char → Char) (st : TokState) : TokState :=
  { st with ne_types := st.ne_types.map (List.map f), ne_values := st.ne_values.map (List.map f) }

/-- Rename the characters of the strings held by the outcome of the
tokenizer. -/
def mapOutcome (f : Char → Char) :
    Except (ParseError × TokState) TokState → Except (ParseError × TokState) TokState
  | .ok st => .ok (st.mapChars f)
  | .error (e, st) => .error (e, st.mapChars f)

/-- The renaming that exchanges `+` and the letter `x`. -/
def swapPlus (c : Char) : Char :=
  if c = '+' then 'x' else if c = 'x' then '+' else c

/-- The character `/`. -/
def isSlash (c : Char) : Bool := decide (c = '/')

/-- The state in which the tokenizing loop is left, whether it completes or
leaves through `goto error`. -/
def finalState : Except (ParseError × TokState) TokState → TokState
  | .ok st => st
  | .error (_, st) => st

/-- Line 70: `buflen = strlen(subject)+1`, for a subject of length `L`. -/
def buflen (L : Nat) : Nat := L + 1

/-- Line 72: `max_ne = buflen / 2 + 1`, the number of cells of `ne_types`,
`ne_values` and `mval`. -/
def max_ne (L : Nat) : Nat := buflen L / 2 + 1

/-- Index bounds while a type is collected: the cells written so far lie
below `ne_num`, the flag cells at or below `ne_num`. -/
def InType (st : TokState) : Prop :=
  st.mval.length ≤ st.ne_num + 1 ∧ st.ne_types.length ≤ st.ne_num ∧
    st.ne_values.length ≤ st.ne_num

/-- Index bounds while a value is collected: cell `ne_num` of `ne_types` may
be in use. -/
def InValue (st : TokState) : Prop :=
  st.mval.length ≤ st.ne_num + 1 ∧ st.ne_types.length ≤ st.ne_num + 1 ∧
    st.ne_values.length ≤ st.ne_num

/-! ## The public-key builders -/

/-- The PKCS#11 attribute types read by the key builders. -/
inductive CK_ATTRIBUTE_TYPE where
  | CKA_MODULUS
  | CKA_PUBLIC_EXPONENT
  | CKA_PRIME
  | CKA_SUBPRIME
  | CKA_BASE
  | CKA_VALUE
  | CKA_EC_PARAMS
  | CKA_EC_POINT
deriving DecidableEq, Repr

/-- An attribute list, seen through the two accessors of `pkcs11lib.h` that
the builders call: whether an attribute is present, and the bytes
(`pValue`, `ulValueLen`) of an attribute, `none` standing for `NULL`. -/
structure pkcs11AttrList where
  pkcs11_attrlist_has_attribute : CK_ATTRIBUTE_TYPE → Bool
  pkcs11_get_attr_in_attrlist : CK_ATTRIBUTE_TYPE → Option (List Nat)

/-- The objects a builder owns through its local variables. -/
inductive Obj where
  | pk
  | rsa
  | dsa
  | ec
  | bn_modulus
  | bn_exponent
  | bn_prime
  | bn_subprime
  | bn_base
  | bn_pubkey
  | ec_group
  | ec_point
  | ec_point_container
  | ec_parameters
deriving DecidableEq, Repr

/-- What happens to an object: it is created for a local variable; it is
freed by the builder (at its `err:` label); it is freed by the OpenSSL call it
was passed to by reference, which also sets the local variable to `NULL`; or
its ownership moves into another object (the builder then sets the local
variable to `NULL`). -/
inductive Event where
  | acquire (o : Obj)
  | release (o : Obj)
  | freedByCallee (o : Obj)
  | moved (o : Obj)
deriving DecidableEq, Repr

/-- An OpenSSL `RSA` object: modulus, public exponent, private exponent. -/
structure RSA where
  n : Option Nat
  e : Option Nat
  d : Option Nat
deriving DecidableEq, Repr

/-- An OpenSSL `DSA` object: domain parameters, public and private value. -/
structure DSA where
  p : Option Nat
  q : Option Nat
  g : Option Nat
  pub_key : Option Nat
  priv_key : Option Nat
deriving DecidableEq, Repr

/-- An OpenSSL `EC_KEY` object: group, public point, private scalar.  Groups
and points are designated by numbers given by the library. -/
structure EC_KEY where
  group : Option Nat
  pub_key : Option Nat
  priv_key : Option Nat
deriving DecidableEq, Repr

/-- An OpenSSL `EVP_PKEY` container: empty as `EVP_PKEY_new` returns it, or
holding the key assigned to it. -/
inductive EVP_PKEY where
  | empty
  | rsa (k : RSA)
  | dsa (k : DSA)
  | ec (k : EC_KEY)
deriving DecidableEq, Repr

/-- The OpenSSL calls of the key builders whose outcome depends on the
library: whether the allocation made for a local variable succeeds (`RSA_new`,
`DSA_new`, `EC_KEY_new`, `EVP_PKEY_new`, `BN_bin2bn`, `EC_POINT_new`,
`ASN1_OCTET_STRING_new`), whether `EVP_PKEY_assign` and the two `EC_KEY`
setters succeed, and the three decoders. -/
structure Crypto where
  new_ok : Obj → Bool
  EVP_PKEY_assign_ok : Bool
  EC_KEY_set_group_ok : Bool
  EC_KEY_set_public_key_ok : Bool
  d2i_ECPKParameters : List Nat → Option Nat
  d2i_ASN1_OCTET_STRING : List Nat → Option (List Nat)
  EC_POINT_oct2point : Nat → List Nat → Option Nat

/-- The unsigned big-endian integer of a byte buffer. -/
def bigEndian (bytes : List Nat) : Nat :=
  bytes.foldl (fun acc b => acc * 256 + b % 256) 0

/-- OpenSSL's `BN_bin2bn(buf, len, NULL)` for the local variable `o`: a new
big number holding the unsigned big-endian integer of the buffer, or `NULL`.
-/
def BN_bin2bn (lib : Crypto) (o : Obj) (bytes : List Nat) : Option Nat :=
  if lib.new_ok o = true then some (bigEndian bytes) else none

/-- OpenSSL's `RSA_set0_key`: fails when a field would stay `NULL`, otherwise
stores the arguments that are not `NULL`. -/
def RSA_set0_key (r : RSA) (n e d : Option Nat) : Option RSA :=
  if (r.n = none ∧ n = none) ∨ (r.e = none ∧ e = none) then none
  else some ⟨n.orElse (fun _ => r.n), e.orElse (fun _ => r.e), d.orElse (fun _ => r.d)⟩

/-- OpenSSL's `DSA_set0_pqg`. -/
def DSA_set0_pqg (k : DSA) (p q g : Option Nat) : Option DSA :=
  if (k.p = none ∧ p = none) ∨ (k.q = none ∧ q = none) ∨ (k.g = none ∧ g = none) then none
  else some { k with p := p.orElse (fun _ => k.p), q := q.orElse (fun _ => k.q),
                     g := g.orElse (fun _ => k.g) }

/-- OpenSSL's `DSA_set0_key`. -/
def DSA_set0_key (k : DSA) (pub_key priv_key : Option Nat) : Option DSA :=
  if k.pub_key = none ∧ pub_key = none then none
  else some { k with pub_key := pub_key.orElse (fun _ => k.pub_key),
                     priv_key := priv_key.orElse (fun _ => k.priv_key) }

/-- How a builder reaches its `err:` label: by falling through after the last
step, after the message "missing attributes to create Subject Public Key
Information", after the message about one missing attribute, or after
`P_ERR()` reported a failed OpenSSL call. -/
inductive BuildExit where
  | completed
  | missingAttributes
  | missingAttribute (a : CK_ATTRIBUTE_TYPE)
  | opensslError
deriving DecidableEq, Repr

/-- What a builder hands back: the returned pointer `pk` (`none` for `NULL`),
the way the `err:` label was reached, and what happened to the objects it
owned. -/
structure BuildResult where
  pk : Option EVP_PKEY
  exit : BuildExit
  log : List Event
deriving DecidableEq, Repr

/-- The error taxonomy of the specification for the key builders. -/
inductive KeyBuildError where
  | MissingAttribute
  | DecodeError
deriving DecidableEq, Repr

/-- Classification of the exits of a builder in the taxonomy of the
specification; `none` when no error was reported. -/
def BuildExit.kind : BuildExit → Option KeyBuildError
  | .completed => none
  | .missingAttributes => some .MissingAttribute
  | .missingAttribute _ => some .MissingAttribute
  | .opensslError => some .DecodeError

/-- The local variables of `pkcs11_SPKI_from_RSA` when `err:` is reached. -/
structure RsaLocals where
  pk : Option EVP_PKEY
  rsa : Option RSA
  bn_modulus : Option Nat
  bn_exponent : Option Nat
  exit : BuildExit
  log : List Event

/-- Lines 322-372 of `pkcs11_SPKI_from_RSA`: the steps up to the `err:`
label. -/
def rsa_steps (lib : Crypto) (attrlist : pkcs11AttrList) : RsaLocals :=
  if attrlist.pkcs11_attrlist_has_attribute .CKA_MODULUS = false ∨
      attrlist.pkcs11_attrlist_has_attribute .CKA_PUBLIC_EXPONENT = false then
    ⟨none, none, none, none, .missingAttributes, []⟩
  else if lib.new_ok .rsa = false then
    ⟨none, none, none, none, .opensslError, []⟩
  else if lib.new_ok .pk = false then
    ⟨none, some ⟨none, none, none⟩, none, none, .opensslError, [.acquire .rsa]⟩
  else
    match attrlist.pkcs11_get_attr_in_attrlist .CKA_MODULUS with
    | none =>
      ⟨some .empty, some ⟨none, none, none⟩, none, none, .missingAttribute .CKA_MODULUS,
        [.acquire .rsa, .acquire .pk]⟩
    | some modulus =>
      match BN_bin2bn lib .bn_modulus modulus with
      | none =>
        ⟨some .empty, some ⟨none, none, none⟩, none, none, .opensslError,
          [.acquire .rsa, .acquire .pk]⟩
      | some bn_modulus =>
        match attrlist.pkcs11_get_attr_in_attrlist .CKA_PUBLIC_EXPONENT with
        | none =>
          ⟨some .empty, some ⟨none, none, none⟩, some bn_modulus, none,
            .missingAttribute .CKA_PUBLIC_EXPONENT,
            [.acquire .rsa, .acquire .pk, .acquire .bn_modulus]⟩
        | some exponent =>
          match BN_bin2bn lib .bn_exponent exponent with
          | none =>
            ⟨some .empty, some ⟨none, none, none⟩, some bn_modulus, none, .opensslError,
              [.acquire .rsa, .acquire .pk, .acquire .bn_modulus]⟩
          | some bn_exponent =>
            match RSA_set0_key ⟨none, none, none⟩ (some bn_modulus) (some bn_exponent) none with
            | none =>
              ⟨some .empty, some ⟨none, none, none⟩, some bn_modulus, some bn_exponent,
                .opensslError,
                [.acquire .rsa, .acquire .pk, .acquire .bn_modulus, .acquire .bn_exponent]⟩
            | some rsa =>
              if lib.EVP_PKEY_assign_ok = false then
                ⟨some .empty, some rsa, none, none, .opensslError,
                  [.acquire .rsa, .acquire .pk, .acquire .bn_modulus, .acquire .bn_exponent,
                    .moved .bn_modulus, .moved .bn_exponent]⟩
              else
                ⟨some (.rsa rsa), none, none, none, .completed,
                  [.acquire .rsa, .acquire .pk, .acquire .bn_modulus, .acquire .bn_exponent,
                    .moved .bn_modulus, .moved .bn_exponent, .moved .rsa]⟩

/-- The statement `if (p != NULL) { free(p); p = NULL; }` for the object `o`.
-/
def releaseIf {α : Type} (p : Option α) (o : Obj) : List Event :=
  match p with
  | some _ => [.release o]
  | none => []

/-- The function `pkcs11_SPKI_from_RSA`: the steps, then lines 374-379. -/
def pkcs11_SPKI_from_RSA (lib : Crypto) (attrlist : pkcs11AttrList) : BuildResult :=
  let l := rsa_steps lib attrlist
  ⟨l.pk, l.exit,
    l.log ++ releaseIf l.bn_modulus .bn_modulus ++ releaseIf l.bn_exponent .bn_exponent ++
      releaseIf l.rsa .rsa⟩

/-- The local variables of `pkcs11_SPKI_from_DSA` when `err:` is reached. -/
structure DsaLocals where
  pk : Option EVP_PKEY
  dsa : Option DSA
  bn_prime : Option Nat
  bn_subprime : Option Nat
  bn_base : Option Nat
  bn_pubkey : Option Nat
  exit : BuildExit
  log : List Event

/-- A `DSA` object as `DSA_new` returns it. -/
def DSA.new : DSA := ⟨none, none, none, none, none⟩

/-- Lines 395-475 of `pkcs11_SPKI_from_DSA`: the steps up to the `err:`
label. -/
def dsa_steps (lib : Crypto) (attrlist : pkcs11AttrList) : DsaLocals :=
  if attrlist.pkcs11_attrlist_has_attribute .CKA_PRIME = false ∨
      attrlist.pkcs11_attrlist_has_attribute .CKA_SUBPRIME = false ∨
      attrlist.pkcs11_attrlist_has_attribute .CKA_BASE = false ∨
      attrlist.pkcs11_attrlist_has_attribute .CKA_VALUE = false then
    ⟨none, none, none, none, none, none, .missingAttributes, []⟩
  else if lib.new_ok .dsa = false then
    ⟨none, none, none, none, none, none, .opensslError, []⟩
  else if lib.new_ok .pk = false then
    ⟨none, some DSA.new, none, none, none, none, .opensslError, [.acquire .dsa]⟩
  else
    match attrlist.pkcs11_get_attr_in_attrlist .CKA_PRIME with
    | none =>
      ⟨some .empty, some DSA.new, none, none, none, none, .missingAttribute .CKA_PRIME,
        [.acquire .dsa, .acquire .pk]⟩
    | some prime =>
      match BN_bin2bn lib .bn_prime prime with
      | none =>
        ⟨some .empty, some DSA.new, none, none, none, none, .opensslError,
          [.acquire .dsa, .acquire .pk]⟩
      | some bn_prime =>
        match attrlist.pkcs11_get_attr_in_attrlist .CKA_SUBPRIME with
        | none =>
          ⟨some .empty, some DSA.new, some bn_prime, none, none, none,
            .missingAttribute .CKA_SUBPRIME, [.acquire .dsa, .acquire .pk, .acquire .bn_prime]⟩
        | some subprime =>
          match BN_bin2bn lib .bn_subprime subprime with
          | none =>
            ⟨some .empty, some DSA.new, some bn_prime, none, none, none, .opensslError,
              [.acquire .dsa, .acquire .pk, .acquire .bn_prime]⟩
          | some bn_subprime =>
            match attrlist.pkcs11_get_attr_in_attrlist .CKA_BASE with
            | none =>
              ⟨some .empty, some DSA.new, some bn_prime, some bn_subprime, none, none,
                .missingAttribute .CKA_BASE,
                [.acquire .dsa, .acquire .pk, .acquire .bn_prime, .acquire .bn_subprime]⟩
            | some base =>
              match BN_bin2bn lib .bn_base base with
              | none =>
                ⟨some .empty, some DSA.new, some bn_prime, some bn_subprime, none, none,
                  .opensslError,
                  [.acquire .dsa, .acquire .pk, .acquire .bn_prime, .acquire .bn_subprime]⟩
              | some bn_base =>
                match attrlist.pkcs11_get_attr_in_attrlist .CKA_VALUE with
                | none =>
                  ⟨some .empty, some DSA.new, some bn_prime, some bn_subprime, some bn_base, none,
                    .missingAttribute .CKA_VALUE,
                    [.acquire .dsa, .acquire .pk, .acquire .bn_prime, .acquire .bn_subprime,
                      .acquire .bn_base]⟩
                | some value =>
                  match BN_bin2bn lib .bn_pubkey value with
                  | none =>
                    ⟨some .empty, some DSA.new, some bn_prime, some bn_subprime, some bn_base,
                      none, .opensslError,
                      [.acquire .dsa, .acquire .pk, .acquire .bn_prime, .acquire .bn_subprime,
                        .acquire .bn_base]⟩
                  | some bn_pubkey =>
                    match DSA_set0_pqg DSA.new (some bn_prime) (some bn_subprime)
                        (some bn_base) with
                    | none =>
                      ⟨some .empty, some DSA.new, some bn_prime, some bn_subprime, some bn_base,
                        some bn_pubkey, .opensslError,
                        [.acquire .dsa, .acquire .pk, .acquire .bn_prime, .acquire .bn_subprime,
                          .acquire .bn_base, .acquire .bn_pubkey]⟩
                    | some dsa1 =>
                      match DSA_set0_key dsa1 (some bn_pubkey) none with
                      | none =>
                        ⟨some .empty, some dsa1, none, none, none, some bn_pubkey, .opensslError,
                          [.acquire .dsa, .acquire .pk, .acquire .bn_prime,
                            .acquire .bn_subprime, .acquire .bn_base, .acquire .bn_pubkey,
                            .moved .bn_prime, .moved .bn_subprime, .moved .bn_base]⟩
                      | some dsa2 =>
                        if lib.EVP_PKEY_assign_ok = false then
                          ⟨some .empty, some dsa2, none, none, none, none, .opensslError,
                            [.acquire .dsa, .acquire .pk, .acquire .bn_prime,
                              .acquire .bn_subprime, .acquire .bn_base, .acquire .bn_pubkey,
                              .moved .bn_prime, .moved .bn_subprime, .moved .bn_base,
                              .moved .bn_pubkey]⟩
                        else
                          ⟨some (.dsa dsa2), none, none, none, none, none, .completed,
                            [.acquire .dsa, .acquire .pk, .acquire .bn_prime,
                              .acquire .bn_subprime, .acquire .bn_base, .acquire .bn_pubkey,
                              .moved .bn_prime, .moved .bn_subprime, .moved .bn_base,
                              .moved .bn_pubkey, .moved .dsa]⟩

/-- The function `pkcs11_SPKI_from_DSA`: the steps, then lines 477-484. -/
def pkcs11_SPKI_from_DSA (lib : Crypto) (attrlist : pkcs11AttrList) : BuildResult :=
  let l := dsa_steps lib attrlist
  ⟨l.pk, l.exit,
    l.log ++ releaseIf l.bn_prime .bn_prime ++ releaseIf l.bn_subprime .bn_subprime ++
      releaseIf l.bn_base .bn_base ++ releaseIf l.bn_pubkey .bn_pubkey ++
      releaseIf l.dsa .dsa⟩

/-- The local variables of `pkcs11_SPKI_from_EC` when `err:` is reached.
`ec_point` holds an allocated point, whose value is set by
`EC_POINT_oct2point`; `ec_parameters` is never assigned. -/
structure EcLocals where
  pk : Option EVP_PKEY
  ec : Option EC_KEY
  ec_point_container : Option (List Nat)
  ec_parameters : Option Unit
  ec_group : Option Nat
  ec_point : Option (Option Nat)
  exit : BuildExit
  log : List Event

/-- An `EC_KEY` object as `EC_KEY_new` returns it. -/
def EC_KEY.new : EC_KEY := ⟨none, none, none⟩

/-- Lines 499-582 of `pkcs11_SPKI_from_EC`: the steps up to the `err:` label.
`EC_KEY_set_group` and `EC_KEY_set_public_key` store a copy of their argument,
which stays owned by the local variable.  Line 558 passes the address of
`ec_point_container` to `d2i_ASN1_OCTET_STRING`: when the decoding succeeds the
container is reused, and when it fails OpenSSL frees the container and sets
`ec_point_container` to `NULL`, so that line 586 then frees nothing. -/
def ec_steps (lib : Crypto) (attrlist : pkcs11AttrList) : EcLocals :=
  if attrlist.pkcs11_attrlist_has_attribute .CKA_EC_PARAMS = false ∨
      attrlist.pkcs11_attrlist_has_attribute .CKA_EC_POINT = false then
    ⟨none, none, none, none, none, none, .missingAttributes, []⟩
  else if lib.new_ok .ec = false then
    ⟨none, none, none, none, none, none, .opensslError, []⟩
  else
    match attrlist.pkcs11_get_attr_in_attrlist .CKA_EC_PARAMS with
    | none =>
      ⟨none, some EC_KEY.new, none, none, none, none, .missingAttribute .CKA_EC_PARAMS,
        [.acquire .ec]⟩
    | some params =>
      match lib.d2i_ECPKParameters params with
      | none =>
        ⟨none, some EC_KEY.new, none, none, none, none, .opensslError, [.acquire .ec]⟩
      | some ec_group =>
        if lib.new_ok .ec_point = false then
          ⟨none, some EC_KEY.new, none, none, some ec_group, none, .opensslError,
            [.acquire .ec, .acquire .ec_group]⟩
        else if lib.new_ok .pk = false then
          ⟨none, some EC_KEY.new, none, none, some ec_group, some none, .opensslError,
            [.acquire .ec, .acquire .ec_group, .acquire .ec_point]⟩
        else if lib.EC_KEY_set_group_ok = false then
          ⟨some .empty, some EC_KEY.new, none, none, some ec_group, some none, .opensslError,
            [.acquire .ec, .acquire .ec_group, .acquire .ec_point, .acquire .pk]⟩
        else if lib.new_ok .ec_point_container = false then
          ⟨some .empty, some ⟨some ec_group, none, none⟩, none, none, some ec_group, some none,
            .opensslError,
            [.acquire .ec, .acquire .ec_group, .acquire .ec_point, .acquire .pk]⟩
        else
          match attrlist.pkcs11_get_attr_in_attrlist .CKA_EC_POINT with
          | none =>
            ⟨some .empty, some ⟨some ec_group, none, none⟩, some [], none, some ec_group,
              some none, .missingAttribute .CKA_EC_POINT,
              [.acquire .ec, .acquire .ec_group, .acquire .ec_point, .acquire .pk,
                .acquire .ec_point_container]⟩
          | some point =>
            match lib.d2i_ASN1_OCTET_STRING point with
            | none =>
              ⟨some .empty, some ⟨some ec_group, none, none⟩, none, none, some ec_group,
                some none, .opensslError,
                [.acquire .ec, .acquire .ec_group, .acquire .ec_point, .acquire .pk,
                  .acquire .ec_point_container, .freedByCallee .ec_point_container]⟩
            | some octets =>
              match lib.EC_POINT_oct2point ec_group octets with
              | none =>
                ⟨some .empty, some ⟨some ec_group, none, none⟩, some octets, none,
                  some ec_group, some none, .opensslError,
                  [.acquire .ec, .acquire .ec_group, .acquire .ec_point, .acquire .pk,
                    .acquire .ec_point_container]⟩
              | some pt =>
                if lib.EC_KEY_set_public_key_ok = false then
                  ⟨some .empty, some ⟨some ec_group, none, none⟩, some octets, none,
                    some ec_group, some (some pt), .opensslError,
                    [.acquire .ec, .acquire .ec_group, .acquire .ec_point, .acquire .pk,
                      .acquire .ec_point_container]⟩
                else if lib.EVP_PKEY_assign_ok = false then
                  ⟨some .empty, some ⟨some ec_group, some pt, none⟩, some octets, none,
                    some ec_group, some (some pt), .opensslError,
                    [.acquire .ec, .acquire .ec_group, .acquire .ec_point, .acquire .pk,
                      .acquire .ec_point_container]⟩
                else
                  ⟨some (.ec ⟨some ec_group, some pt, none⟩), none, some octets, none,
                    some ec_group, some (some pt), .completed,
                    [.acquire .ec, .acquire .ec_group, .acquire .ec_point, .acquire .pk,
                      .acquire .ec_point_container, .moved .ec]⟩

/-- The function `pkcs11_SPKI_from_EC`: the steps, then lines 584-591. -/
def pkcs11_SPKI_from_EC (lib : Crypto) (attrlist : pkcs11AttrList) : BuildResult :=
  let l := ec_steps lib attrlist
  ⟨l.pk, l.exit,
    l.log ++ releaseIf l.ec .ec ++ releaseIf l.ec_point_container .ec_point_container ++
      releaseIf l.ec_parameters .ec_parameters ++ releaseIf l.ec_group .ec_group ++
      releaseIf l.ec_point .ec_point⟩

/-- A toy library used in examples: every allocation and assignment succeeds;
the only curve parameters that decode are the DER encoding of the object
identifier of `prime256v1` (group 415); an octet string decodes when it has tag
4 and a one-byte length matching what follows; the only point octets accepted
on group 415 are `4, 1, 2`. -/
def sampleCrypto : Crypto where
  new_ok := fun _ => true
  EVP_PKEY_assign_ok := true
  EC_KEY_set_group_ok := true
  EC_KEY_set_public_key_ok := true
  d2i_ECPKParameters := fun b => if b = [6, 8, 42, 134, 72, 206, 61, 3, 1, 7] then some 415 else none
  d2i_ASN1_OCTET_STRING := fun b =>
    match b with
    | 4 :: n :: rest => if n < 128 ∧ n = rest.length then some rest else none
    | _ => none
  EC_POINT_oct2point := fun g o => if g = 415 ∧ o = [4, 1, 2] then some 1 else none

/-- An attribute list given by its entries: an attribute is present when it
has an entry, and its bytes are those of its first entry. -/
def attrsOf (entries : List (CK_ATTRIBUTE_TYPE × List Nat)) : pkcs11AttrList where
  pkcs11_attrlist_has_attribute := fun t => entries.any (fun e => decide (e.1 = t))
  pkcs11_get_attr_in_attrlist := fun t => (entries.find? (fun e => decide (e.1 = t))).map Prod.snd

/-- The DER encoding of the object identifier of the curve `prime256v1`. -/
def prime256v1_oid : List Nat := [6, 8, 42, 134, 72, 206, 61, 3, 1, 7]

/-- The toy library, except that the allocation made for the local variable
`o` fails. -/
def sampleCryptoFailing (o : Obj) : Crypto :=
  { sampleCrypto with new_ok := fun x => decide (x ≠ o) }

/-! ## Properties of the tokenizer -/

theorem collectType_nil (m : Bool) (st : TokState) (ty : List Char) :
    collectType m st ty [] = .error (.typeEndOfString st.ne_num, st) := by
  simp [collectType]

theorem collectType_cons (m : Bool) (st : TokState) (ty : List Char) (c : Char) (sp : List Char) :
    collectType m st ty (c :: sp) =
      if c = '\\' then
        match sp with
        | [] => .error (.escapeAtEnd, st)
        | c' :: sp' => collectType m st.putc (ty ++ [c']) sp'
      else if c = '=' then
        match sp with
        | [] => .error (.typeEndOfString st.ne_num, st.endType ty)
        | c' :: sp' => collectValue m (st.endType ty) [] (c' :: sp')
      else collectType m st.putc (ty ++ [c]) sp := by
  cases sp <;> simp [collectType]

theorem collectValue_nil (m : Bool) (st : TokState) (v : List Char) :
    collectValue m st v [] = .ok (st.endValue v) := by
  simp [collectValue]

theorem collectValue_cons (m : Bool) (st : TokState) (v : List Char) (c : Char) (sp : List Char) :
    collectValue m st v (c :: sp) =
      if c = '\\' then
        match sp with
        | [] => .error (.escapeAtEnd, st)
        | c' :: sp' => collectValue m st.putc (v ++ [c']) sp'
      else if c = '/' then nameLoop m ((st.setNext 0).endValue v) sp
      else if c = '+' ∧ m = true then nameLoop m ((st.setNext (-1)).endValue v) sp
      else collectValue m st.putc (v ++ [c]) sp := by
  cases sp <;> simp [collectValue, nameLoop]

theorem tokenize_slash (m : Bool) (sp : List Char) :
    tokenize m ('/' :: sp) = nameLoop m TokState.init sp := by
  simp [tokenize]

theorem putc_eq_putn (st : TokState) : st.putc = st.putn 1 := rfl

theorem putn_zero (st : TokState) : st.putn 0 = st := rfl

theorem putn_putn (st : TokState) (a b : Nat) : (st.putn a).putn b = st.putn (a + b) := by
  simp [TokState.putn, Nat.add_assoc]

theorem putn_ne_num (st : TokState) (a : Nat) : (st.putn a).ne_num = st.ne_num := rfl

theorem unescape_esc (c : Char) (r : List Char) : unescape ('\\' :: c :: r) = c :: unescape r := by
  rw [unescape]; simp

theorem unescape_plain (c : Char) (r : List Char) (hc : ¬ c = '\\') :
    unescape (c :: r) = c :: unescape r := by
  rw [unescape.eq_def]; simp [hc]

theorem rawField_esc (stop : Char → Bool) (c : Char) (r : List Char) :
    rawField stop ('\\' :: c :: r) = rawField stop r := by
  rw [rawField]; simp

theorem rawField_plain (stop : Char → Bool) (c : Char) (r : List Char) (hc : ¬ c = '\\') :
    rawField stop (c :: r) = (!stop c && rawField stop r) := by
  rw [rawField.eq_def]; simp [hc]

/-- A well-formed raw type followed by `=`: the label is closed, and the
value loop is entered unless the string ends there. -/
theorem collectType_field (m : Bool) (rt : List Char) :
    ∀ (st : TokState) (ty rest : List Char), rawField typeStop rt = true →
      collectType m st ty (rt ++ '=' :: rest) =
        match rest with
        | [] => .error (.typeEndOfString st.ne_num,
                  (st.putn (unescape rt).length).endType (ty ++ unescape rt))
        | c :: r => collectValue m ((st.putn (unescape rt).length).endType (ty ++ unescape rt))
                  [] (c :: r) := by
  induction rt using unescape.induct with
  | case1 =>
    intro st ty rest _
    cases rest <;> simp [collectType_cons, unescape, putn_zero]
  | case2 => intro st ty rest h; simp [rawField] at h
  | case3 c sp ih =>
    intro st ty rest h
    have h' : rawField typeStop sp = true := by simpa [rawField_esc] using h
    simp only [List.cons_append, collectType_cons, if_true, ih st.putc (ty ++ [c]) rest h']
    cases rest <;>
      simp [unescape_esc, putc_eq_putn, putn_putn, putn_ne_num, Nat.add_comm, List.append_assoc]
  | case4 c sp hc ih =>
    intro st ty rest h
    have h' : typeStop c = false ∧ rawField typeStop sp = true := by
      simpa [rawField_plain _ _ _ hc] using h
    have hc2 : ¬ c = '=' := by simpa [typeStop] using h'.1
    simp only [List.cons_append, collectType_cons, if_neg hc, if_neg hc2,
      ih st.putc (ty ++ [c]) rest h'.2]
    cases rest <;>
      simp [unescape_plain _ _ hc, putc_eq_putn, putn_putn, putn_ne_num, Nat.add_comm,
        List.append_assoc]


/-- A well-formed raw type that runs to the end of the string: line 126
reports the current element number. -/
theorem collectType_eos (m : Bool) (rt : List Char) :
    ∀ (st : TokState) (ty : List Char), rawField typeStop rt = true →
      collectType m st ty rt =
        .error (.typeEndOfString st.ne_num, st.putn (unescape rt).length) := by
  induction rt using unescape.induct with
  | case1 => intro st ty _; simp [collectType_nil, unescape, putn_zero]
  | case2 => intro st ty h; simp [rawField] at h
  | case3 c sp ih =>
    intro st ty h
    have h' : rawField typeStop sp = true := by simpa [rawField_esc] using h
    simp only [collectType_cons, if_true, ih st.putc (ty ++ [c]) h']
    simp [unescape_esc, putc_eq_putn, putn_putn, putn_ne_num, Nat.add_comm]
  | case4 c sp hc ih =>
    intro st ty h
    have h' : typeStop c = false ∧ rawField typeStop sp = true := by
      simpa [rawField_plain _ _ _ hc] using h
    have hc2 : ¬ c = '=' := by simpa [typeStop] using h'.1
    simp only [collectType_cons, if_neg hc, if_neg hc2, ih st.putc (ty ++ [c]) h'.2]
    simp [unescape_plain _ _ hc, putc_eq_putn, putn_putn, putn_ne_num, Nat.add_comm]

/-- A well-formed raw value followed by a separator: the look-ahead flag is
written, the value is closed, and the enclosing loop is tested again. -/
theorem collectValue_field (m : Bool) (sep : Char) (hsep : valueStop m sep = true)
    (rv : List Char) :
    ∀ (st : TokState) (v rest : List Char), rawField (valueStop m) rv = true →
      collectValue m st v (rv ++ sep :: rest) =
        nameLoop m (((st.putn (unescape rv).length).setNext (sepFlag sep)).endValue
          (v ++ unescape rv)) rest := by
  have hs : sep = '/' ∨ (sep = '+' ∧ m = true) := by
    simpa [valueStop] using hsep
  have hne : ¬ sep = '\\' := by
    rcases hs with h | h
    · rw [h]; decide
    · rw [h.1]; decide
  induction rv using unescape.induct with
  | case1 =>
    intro st v rest _
    rcases hs with h | h
    · subst h; simp [collectValue_cons, unescape, putn_zero, sepFlag]
    · have h1 := h.1
      subst h1
      simp [collectValue_cons, unescape, putn_zero, sepFlag, h.2]
  | case2 => intro st v rest h; simp [rawField] at h
  | case3 c sp ih =>
    intro st v rest h
    have h' : rawField (valueStop m) sp = true := by simpa [rawField_esc] using h
    simp only [List.cons_append, collectValue_cons, if_true, ih st.putc (v ++ [c]) rest h']
    simp [unescape_esc, putc_eq_putn, putn_putn, Nat.add_comm]
  | case4 c sp hc ih =>
    intro st v rest h
    have h' : valueStop m c = false ∧ rawField (valueStop m) sp = true := by
      simpa [rawField_plain _ _ _ hc] using h
    have hc2 : ¬ c = '/' := by
      intro hh; have := h'.1; simp [valueStop, hh] at this
    have hc3 : ¬ (c = '+' ∧ m = true) := by
      intro hh; have := h'.1; simp [valueStop, hh.1, hh.2] at this
    simp only [List.cons_append, collectValue_cons, if_neg hc, if_neg hc2, if_neg hc3,
      ih st.putc (v ++ [c]) rest h'.2]
    simp [unescape_plain _ _ hc, putc_eq_putn, putn_putn, Nat.add_comm]

/-- A well-formed raw value that runs to the end of the string: the value is
closed and the loop ends. -/
theorem collectValue_eos (m : Bool) (rv : List Char) :
    ∀ (st : TokState) (v : List Char), rawField (valueStop m) rv = true →
      collectValue m st v rv =
        .ok ((st.putn (unescape rv).length).endValue (v ++ unescape rv)) := by
  induction rv using unescape.induct with
  | case1 => intro st v _; simp [collectValue_nil, unescape, putn_zero]
  | case2 => intro st v h; simp [rawField] at h
  | case3 c sp ih =>
    intro st v h
    have h' : rawField (valueStop m) sp = true := by simpa [rawField_esc] using h
    simp only [collectValue_cons, if_true, ih st.putc (v ++ [c]) h']
    simp [unescape_esc, putc_eq_putn, putn_putn, Nat.add_comm]
  | case4 c sp hc ih =>
    intro st v h
    have h' : valueStop m c = false ∧ rawField (valueStop m) sp = true := by
      simpa [rawField_plain _ _ _ hc] using h
    have hc2 : ¬ c = '/' := by
      intro hh; have := h'.1; simp [valueStop, hh] at this
    have hc3 : ¬ (c = '+' ∧ m = true) := by
      intro hh; have := h'.1; simp [valueStop, hh.1, hh.2] at this
    simp only [collectValue_cons, if_neg hc, if_neg hc2, if_neg hc3,
      ih st.putc (v ++ [c]) h'.2]
    simp [unescape_plain _ _ hc, putc_eq_putn, putn_putn, Nat.add_comm]

theorem nameLoop_nil (m : Bool) (st : TokState) : nameLoop m st [] = .ok st := rfl

theorem nameLoop_of_ne_nil (m : Bool) (st : TokState) (sp : List Char) (h : sp ≠ []) :
    nameLoop m st sp = collectType m st [] sp := by
  cases sp with
  | nil => exact absurd rfl h
  | cons c r => rfl

theorem collectType_field_cons (m : Bool) (rt : List Char) (st : TokState) (ty rest : List Char)
    (h : rawField typeStop rt = true) (hr : rest ≠ []) :
    collectType m st ty (rt ++ '=' :: rest) =
      collectValue m ((st.putn (unescape rt).length).endType (ty ++ unescape rt)) [] rest := by
  rw [collectType_field m rt st ty rest h]
  cases rest with
  | nil => exact absurd rfl hr
  | cons c r => rfl

/-- Reading one well-formed element followed by a separator from the loop
head. -/
theorem nameLoop_element (m : Bool) (e : RawElement) (st : TokState) (rest : List Char)
    (h : e.wf m = true) :
    nameLoop m st (e.render ++ rest) = nameLoop m (st.push e) rest := by
  simp only [RawElement.wf, Bool.and_eq_true] at h
  obtain ⟨⟨ht, hv⟩, hs⟩ := h
  have h1 : e.render ++ rest = e.type ++ '=' :: (e.value ++ e.sep :: rest) := by
    simp [RawElement.render]
  rw [h1, nameLoop_of_ne_nil _ _ _ (by simp),
    collectType_field_cons m e.type st [] _ ht (by simp),
    collectValue_field m e.sep hs e.value _ [] rest hv]
  simp [TokState.push]

/-- Reading a well-formed last element from the loop head. -/
theorem nameLoop_last (m : Bool) (e : RawLast) (st : TokState) (h : e.wf m = true) :
    nameLoop m st e.render = .ok (st.pushLast e) := by
  simp only [RawLast.wf, Bool.and_eq_true, decide_eq_true_eq] at h
  obtain ⟨⟨ht, hv⟩, hne⟩ := h
  rw [RawLast.render, nameLoop_of_ne_nil _ _ _ (by simp),
    collectType_field_cons m e.type st [] _ ht hne, collectValue_eos m e.value _ [] hv]
  simp [TokState.pushLast]

/-- Reading a sequence of well-formed elements from the loop head. -/
theorem nameLoop_elements (m : Bool) (es : List RawElement) :
    ∀ (st : TokState) (rest : List Char), (∀ e ∈ es, e.wf m = true) →
      nameLoop m st (es.flatMap RawElement.render ++ rest) = nameLoop m (es.foldl TokState.push st) rest := by
  induction es with
  | nil => intro st rest _; simp
  | cons e es ih =>
    intro st rest h
    have he : e.wf m = true := h e (List.mem_cons_self _ _)
    have hes : ∀ x ∈ es, x.wf m = true := fun x hx => h x (List.mem_cons_of_mem _ hx)
    simp only [List.flatMap_cons, List.append_assoc, List.foldl_cons]
    rw [nameLoop_element m e st _ he, ih (st.push e) rest hes]

theorem writeAt_length (a : List (Option Int)) (v : Int) :
    writeAt a a.length v = a ++ [some v] := by
  simp [writeAt]

theorem atHead_init : AtHead TokState.init [] 0 := by
  simp [AtHead, TokState.init, writeAt]

theorem atHead_push (st : TokState) (es : List NameElement) (f : Int) (e : RawElement)
    (h : AtHead st es f) :
    AtHead (st.push e) (es ++ [⟨unescape e.type, unescape e.value, f⟩]) (sepFlag e.sep) := by
  obtain ⟨h1, h2, h3, h4⟩ := h
  have hl : st.mval.length = st.ne_num + 1 := by simp [h3, h4]
  refine ⟨?_, ?_, ?_, ?_⟩
  · simp [TokState.push, TokState.endValue, TokState.setNext, TokState.putn, TokState.endType, h1]
  · simp [TokState.push, TokState.endValue, TokState.setNext, TokState.putn, TokState.endType, h2]
  · simp only [TokState.push, TokState.endValue, TokState.setNext, TokState.putn,
      TokState.endType]
    rw [← hl, writeAt_length, h3]
    simp
  · simp [TokState.push, TokState.endValue, TokState.setNext, TokState.putn, TokState.endType, h4]

theorem holds_of_atHead (st : TokState) (es : List NameElement) (f : Int) (h : AtHead st es f) :
    Holds st es :=
  ⟨h.1, h.2.1, h.2.2.2, [some f], h.2.2.1⟩

theorem holds_pushLast (st : TokState) (es : List NameElement) (f : Int) (e : RawLast)
    (h : AtHead st es f) :
    Holds (st.pushLast e) (es ++ [⟨unescape e.type, unescape e.value, f⟩]) := by
  obtain ⟨h1, h2, h3, h4⟩ := h
  refine ⟨?_, ?_, ?_, [], ?_⟩
  · simp [TokState.pushLast, TokState.endValue, TokState.putn, TokState.endType, h1]
  · simp [TokState.pushLast, TokState.endValue, TokState.putn, TokState.endType, h2]
  · simp [TokState.pushLast, TokState.endValue, TokState.putn, TokState.endType, h4]
  · simp [TokState.pushLast, TokState.endValue, TokState.putn, TokState.endType, h3]

/-- The arrays of the state reached by reading `items` and `last` hold the
elements the text stands for. -/
theorem holds_final (items : List RawElement) (last : Option RawLast) :
    ∀ (st : TokState) (es : List NameElement) (f : Int), AtHead st es f →
      Holds (st.final items last) (es ++ specElements f items last) := by
  induction items with
  | nil =>
    intro st es f h
    cases last with
    | none => simpa [TokState.final, specElements] using holds_of_atHead st es f h
    | some l => simpa [TokState.final, specElements] using holds_pushLast st es f l h
  | cons e items ih =>
    intro st es f h
    have := ih (st.push e) _ _ (atHead_push st es f e h)
    simpa [TokState.final, specElements, List.append_assoc] using this

theorem mapM_range_eq {α : Type} (f : Nat → Option α) (l : List α) :
    (∀ i, ∀ hi : i < l.length, f i = some (l.get ⟨i, hi⟩)) →
      (List.range l.length).mapM f = some l := by
  induction l using List.reverseRecOn with
  | nil => intro _; rfl
  | append_singleton l a ih =>
    intro h
    have h1 : (List.range l.length).mapM f = some l := by
      apply ih
      intro i hi
      have := h i (by simp; omega)
      simpa [List.getElem_append_left, hi] using this
    have h2 : f l.length = some a := by
      have := h l.length (by simp)
      simpa using this
    rw [List.length_append, List.length_singleton, List.range_succ, List.mapM_append, h1,
      List.mapM_cons, List.mapM_nil, h2]
    rfl

theorem holds_element (st : TokState) (es : List NameElement) (h : Holds st es) (i : Nat)
    (hi : i < es.length) : st.element i = some (es.get ⟨i, hi⟩) := by
  obtain ⟨h1, h2, _, tl, h4⟩ := h
  have e1 : st.ne_types[i]? = some (es.get ⟨i, hi⟩).type_label := by
    simp [h1, List.getElem?_eq_getElem hi]
  have e2 : st.ne_values[i]? = some (es.get ⟨i, hi⟩).value := by
    simp [h2, List.getElem?_eq_getElem hi]
  have e3 : st.readMval i = some (es.get ⟨i, hi⟩).mval := by
    simp [TokState.readMval, h4, List.getElem?_append_left, hi, List.getElem?_eq_getElem hi]
  simp [TokState.element, e1, e2, e3]

/-- When the arrays hold `es`, reading cells `0 .. ne_num-1` yields `es`:
every cell read was written. -/
theorem holds_elements (st : TokState) (es : List NameElement) (h : Holds st es) :
    st.elements = some es := by
  have hn : st.ne_num = es.length := h.2.2.1
  rw [TokState.elements, hn]
  exact mapM_range_eq st.element es (fun i hi => holds_element st es h i hi)

/-- The tokenizer on the text of well-formed elements. -/
theorem tokenize_render (m : Bool) (items : List RawElement) (last : Option RawLast)
    (hi : ∀ e ∈ items, e.wf m = true) (hl : ∀ e, last = some e → e.wf m = true) :
    tokenize m (renderSubject items last) = .ok (TokState.init.final items last) := by
  rw [renderSubject, tokenize_slash, nameLoop_elements m items _ _ hi]
  cases last with
  | none => simp [TokState.final, nameLoop_nil, renderLast]
  | some e => simp [TokState.final, nameLoop_last m e _ (hl e rfl), renderLast]

/-- The elements parsed from the text of well-formed elements. -/
theorem parsedElements_render (m : Bool) (items : List RawElement) (last : Option RawLast)
    (hi : ∀ e ∈ items, e.wf m = true) (hl : ∀ e, last = some e → e.wf m = true) :
    parsedElements m (renderSubject items last) = some (specElements 0 items last) := by
  rw [parsedElements, tokenize_render m items last hi hl]
  have := holds_final items last TokState.init [] 0 atHead_init
  simpa using holds_elements _ _ this

/-- Every string either has a first unescaped stop character after a
well-formed field, or is a well-formed field as a whole, or ends inside an
escape after a well-formed field. -/
theorem splitField (stop : Char → Bool) (sp : List Char) :
    (∃ r c rest, sp = r ++ c :: rest ∧ rawField stop r = true ∧ stop c = true ∧ ¬ c = '\\') ∨
      rawField stop sp = true ∨ (∃ r, sp = r ++ ['\\'] ∧ rawField stop r = true) := by
  induction sp using unescape.induct with
  | case1 => right; left; rfl
  | case2 => right; right; exact ⟨[], rfl, rfl⟩
  | case3 c sp ih =>
    rcases ih with ⟨r, d, rest, h1, h2, h3, h4⟩ | h | ⟨r, h1, h2⟩
    · left
      exact ⟨'\\' :: c :: r, d, rest, by simp [h1], by simpa [rawField_esc] using h2, h3, h4⟩
    · right; left; simpa [rawField_esc] using h
    · right; right
      exact ⟨'\\' :: c :: r, by simp [h1], by simpa [rawField_esc] using h2⟩
  | case4 c sp hc ih =>
    by_cases hs : stop c = true
    · left; exact ⟨[], c, sp, rfl, rfl, hs, hc⟩
    · have hs' : stop c = false := by simpa using hs
      rcases ih with ⟨r, d, rest, h1, h2, h3, h4⟩ | h | ⟨r, h1, h2⟩
      · left
        exact ⟨c :: r, d, rest, by simp [h1], by simp [rawField_plain _ _ _ hc, hs', h2], h3, h4⟩
      · right; left; simp [rawField_plain _ _ _ hc, hs', h]
      · right; right
        exact ⟨c :: r, by simp [h1], by simp [rawField_plain _ _ _ hc, hs', h2]⟩

/-- A well-formed raw type followed by a lone backslash: line 113. -/
theorem collectType_dangling (m : Bool) (rt : List Char) :
    ∀ (st : TokState) (ty : List Char), rawField typeStop rt = true →
      collectType m st ty (rt ++ ['\\']) =
        .error (.escapeAtEnd, st.putn (unescape rt).length) := by
  induction rt using unescape.induct with
  | case1 => intro st ty _; simp [collectType_cons, unescape, putn_zero]
  | case2 => intro st ty h; simp [rawField] at h
  | case3 c sp ih =>
    intro st ty h
    have h' : rawField typeStop sp = true := by simpa [rawField_esc] using h
    simp only [List.cons_append, collectType_cons, if_true, ih st.putc (ty ++ [c]) h']
    simp [unescape_esc, putc_eq_putn, putn_putn, Nat.add_comm]
  | case4 c sp hc ih =>
    intro st ty h
    have h' : typeStop c = false ∧ rawField typeStop sp = true := by
      simpa [rawField_plain _ _ _ hc] using h
    have hc2 : ¬ c = '=' := by simpa [typeStop] using h'.1
    simp only [List.cons_append, collectType_cons, if_neg hc, if_neg hc2,
      ih st.putc (ty ++ [c]) h'.2]
    simp [unescape_plain _ _ hc, putc_eq_putn, putn_putn, Nat.add_comm]

/-- A well-formed raw value followed by a lone backslash: line 140. -/
theorem collectValue_dangling (m : Bool) (rv : List Char) :
    ∀ (st : TokState) (v : List Char), rawField (valueStop m) rv = true →
      collectValue m st v (rv ++ ['\\']) =
        .error (.escapeAtEnd, st.putn (unescape rv).length) := by
  induction rv using unescape.induct with
  | case1 => intro st v _; simp [collectValue_cons, unescape, putn_zero]
  | case2 => intro st v h; simp [rawField] at h
  | case3 c sp ih =>
    intro st v h
    have h' : rawField (valueStop m) sp = true := by simpa [rawField_esc] using h
    simp only [List.cons_append, collectValue_cons, if_true, ih st.putc (v ++ [c]) h']
    simp [unescape_esc, putc_eq_putn, putn_putn, Nat.add_comm]
  | case4 c sp hc ih =>
    intro st v h
    have h' : valueStop m c = false ∧ rawField (valueStop m) sp = true := by
      simpa [rawField_plain _ _ _ hc] using h
    have hc2 : ¬ c = '/' := by
      intro hh; have := h'.1; simp [valueStop, hh] at this
    have hc3 : ¬ (c = '+' ∧ m = true) := by
      intro hh; have := h'.1; simp [valueStop, hh.1, hh.2] at this
    simp only [List.cons_append, collectValue_cons, if_neg hc, if_neg hc2, if_neg hc3,
      ih st.putc (v ++ [c]) h'.2]
    simp [unescape_plain _ _ hc, putc_eq_putn, putn_putn, Nat.add_comm]

/-- Every text on which the loop succeeds is the text of well-formed
elements. -/
theorem nameLoop_ok_inv (m : Bool) :
    ∀ (n : Nat) (sp : List Char), sp.length ≤ n → ∀ (st st' : TokState),
      nameLoop m st sp = .ok st' →
        ∃ (items : List RawElement) (last : Option RawLast),
          (∀ e ∈ items, RawElement.wf m e = true) ∧
          (∀ e, last = some e → RawLast.wf m e = true) ∧
          sp = items.flatMap RawElement.render ++ renderLast last := by
  intro n
  induction n with
  | zero =>
    intro sp hn st st' _
    have : sp = [] := List.length_eq_zero.mp (Nat.le_zero.mp hn)
    exact ⟨[], none, by simp, by simp, by simp [this, renderLast]⟩
  | succ n ih =>
    intro sp hn st st' h
    by_cases hsp : sp = []
    · exact ⟨[], none, by simp, by simp, by simp [hsp, renderLast]⟩
    rw [nameLoop_of_ne_nil m st sp hsp] at h
    rcases splitField typeStop sp with ⟨rt, c, rest, h1, h2, h3, _⟩ | h2 | ⟨r, h1, h2⟩
    · have hc : c = '=' := by simpa [typeStop] using h3
      subst hc
      by_cases hrest : rest = []
      · subst hrest
        rw [h1, collectType_field m rt st [] [] h2] at h
        simp at h
      rw [h1, collectType_field_cons m rt st [] rest h2 hrest] at h
      rcases splitField (valueStop m) rest with ⟨rv, d, rest', g1, g2, g3, _⟩ | g2 | ⟨r, g1, g2⟩
      · rw [g1, collectValue_field m d g3 rv _ [] rest' g2] at h
        have hlen : rest'.length ≤ n := by
          have : sp.length = rt.length + 1 + (rv.length + 1 + rest'.length) := by
            rw [h1, g1]; simp; omega
          omega
        obtain ⟨items, last, w1, w2, w3⟩ := ih rest' hlen _ _ h
        refine ⟨⟨rt, rv, d⟩ :: items, last, ?_, w2, ?_⟩
        · intro e he
          rcases List.mem_cons.mp he with he | he
          · subst he; simp [RawElement.wf, h2, g2, g3]
          · exact w1 e he
        · rw [h1, g1, w3]; simp [RawElement.render]
      · refine ⟨[], some ⟨rt, rest⟩, by simp, ?_, ?_⟩
        · intro e he
          have : e = ⟨rt, rest⟩ := by simpa using he.symm
          subst this
          simp [RawLast.wf, h2, g2, hrest]
        · rw [h1]; simp [renderLast, RawLast.render]
      · rw [g1, collectValue_dangling m r _ [] g2] at h
        simp at h
    · rw [collectType_eos m sp st [] h2] at h
      simp at h
    · rw [h1, collectType_dangling m r st [] h2] at h
      simp at h

/-- Every subject that tokenizes is the text of well-formed elements. -/
theorem tokenize_ok_inv (m : Bool) (s : List Char) (st : TokState) (h : tokenize m s = .ok st) :
    ∃ (items : List RawElement) (last : Option RawLast),
      (∀ e ∈ items, RawElement.wf m e = true) ∧
        (∀ e, last = some e → RawLast.wf m e = true) ∧ s = renderSubject items last := by
  cases s with
  | nil => simp [tokenize] at h
  | cons c sp =>
    by_cases hc : c = '/'
    · subst hc
      rw [tokenize_slash] at h
      obtain ⟨items, last, w1, w2, w3⟩ := nameLoop_ok_inv m sp.length sp (Nat.le_refl _) _ _ h
      exact ⟨items, last, w1, w2, by rw [renderSubject, w3]⟩
    · simp [tokenize, hc] at h

/-! ## Properties of the insertion loops -/

theorem addStep_eq_addElem (lib : OpenSSL) (chtype : Int) (st : TokState)
    (es : List NameElement) (h : Holds st es) (acc : X509_NAME × Nat) (i : Nat)
    (hi : i < es.length) :
    addStep lib chtype st acc i = addElem lib chtype acc (es.get ⟨i, hi⟩) := by
  obtain ⟨h1, h2, _, tl, h4⟩ := h
  have e1 : st.ne_types[i]? = some (es.get ⟨i, hi⟩).type_label := by
    simp [h1, List.getElem?_eq_getElem hi]
  have e2 : st.ne_values[i]? = some (es.get ⟨i, hi⟩).value := by
    simp [h2, List.getElem?_eq_getElem hi]
  have e3 : st.readMval i = some (es.get ⟨i, hi⟩).mval := by
    simp [TokState.readMval, h4, List.getElem?_append_left, hi, List.getElem?_eq_getElem hi]
  generalize es.get ⟨i, hi⟩ = e at e1 e2 e3 ⊢
  simp only [addStep, addElem, survives, e1, e2, e3]
  by_cases c1 : lib.OBJ_txt2nid e.type_label = NID_undef
  · simp [c1]
  · by_cases c2 : e.value = []
    · simp [c1, c2]
    · simp [c1, c2]

theorem foldlM_addStep (lib : OpenSSL) (chtype : Int) (st : TokState)
    (es : List NameElement) (h : Holds st es) (l : List Nat) :
    ∀ acc, (∀ i ∈ l, i < es.length) →
      l.foldlM (addStep lib chtype st) acc =
        (l.filterMap (fun i => es[i]?)).foldlM (addElem lib chtype) acc := by
  induction l with
  | nil => intro acc _; rfl
  | cons i l ih =>
    intro acc hl
    have hi : i < es.length := hl i (List.mem_cons_self _ _)
    have hl' : ∀ k ∈ l, k < es.length := fun k hk => hl k (List.mem_cons_of_mem _ hk)
    have e : es[i]? = some (es.get ⟨i, hi⟩) := by simp [List.getElem?_eq_getElem hi]
    rw [List.foldlM_cons, List.filterMap_cons_some e, List.foldlM_cons,
      addStep_eq_addElem lib chtype st es h acc i hi]
    cases addElem lib chtype acc (es.get ⟨i, hi⟩) with
    | error e => rfl
    | ok acc' => exact ih acc' hl'

theorem filterMap_range_getElem {α : Type} (l : List α) :
    (List.range l.length).filterMap (fun i => l[i]?) = l := by
  induction l using List.reverseRecOn with
  | nil => rfl
  | append_singleton l a ih =>
    rw [List.length_append, List.length_singleton, List.range_succ, List.filterMap_append]
    have h1 : (List.range l.length).filterMap (fun i => (l ++ [a])[i]?) =
        (List.range l.length).filterMap (fun i => l[i]?) := by
      apply List.filterMap_congr
      intro i hi
      have : i < l.length := List.mem_range.mp hi
      simp [List.getElem?_append_left, this]
    rw [h1, ih]
    simp

/-- The insertion loop run on the arrays is the element-wise loop run on the
elements in visiting order. -/
theorem loop_eq_elements (lib : OpenSSL) (chtype : Int) (st : TokState)
    (es : List NameElement) (h : Holds st es) (r : Bool) (acc : X509_NAME × Nat) :
    (loopIndices st.ne_num r).foldlM (addStep lib chtype st) acc =
      (visitOrder r es).foldlM (addElem lib chtype) acc := by
  have hn : st.ne_num = es.length := h.2.2.1
  rw [foldlM_addStep lib chtype st es h]
  · cases r with
    | false =>
      simp only [loopIndices, visitOrder, if_true, hn, List.filterMap_reverse,
        filterMap_range_getElem]
    | true =>
      simp [loopIndices, visitOrder, hn, filterMap_range_getElem]
  · intro i hi
    cases r <;> simpa [loopIndices, hn] using hi

/-- When the primitive accepts every entry, the element-wise loop appends the
entries of the surviving elements, in the order visited, and counts them. -/
theorem foldlM_addElem_ok (lib : OpenSSL) (chtype : Int)
    (hok : ∀ n e, lib.add_entry_ok n e = true) (l : List NameElement) :
    ∀ acc : X509_NAME × Nat,
      l.foldlM (addElem lib chtype) acc =
        .ok (acc.1 ++ (l.filter (survives lib)).map (entryOf lib chtype),
          acc.2 + (l.filter (survives lib)).length) := by
  induction l with
  | nil => intro acc; simp [pure, Except.pure]
  | cons e l ih =>
    intro acc
    rw [List.foldlM_cons]
    by_cases hs : survives lib e = true
    · simp only [addElem, hs, if_true, X509_NAME_add_entry_by_NID, hok]
      simp only [bind, Except.bind]
      rw [ih]
      simp [List.filter_cons, hs, entryOf, Nat.add_assoc, Nat.add_comm]
    · have hs' : survives lib e = false := by simpa using hs
      simp only [addElem, hs', Bool.false_eq_true, if_false]
      simp only [bind, Except.bind]
      rw [ih]
      simp [List.filter_cons, hs']

/-- A subject whose elements can be read tokenizes into arrays holding these
elements. -/
theorem holds_of_parsed (m : Bool) (s : List Char) (es : List NameElement)
    (h : parsedElements m s = some es) : ∃ st, tokenize m s = .ok st ∧ Holds st es := by
  rw [parsedElements] at h
  cases ht : tokenize m s with
  | error e => rw [ht] at h; simp at h
  | ok st =>
    rw [ht] at h
    replace h : st.elements = some es := h
    refine ⟨st, rfl, ?_⟩
    obtain ⟨items, last, w1, w2, w3⟩ := tokenize_ok_inv m s st ht
    have hst : st = TokState.init.final items last := by
      have := tokenize_render m items last w1 w2
      rw [← w3, ht] at this
      exact Except.ok.inj this
    have hh := holds_final items last TokState.init [] 0 atHead_init
    rw [← hst] at hh
    have := holds_elements st _ hh
    rw [this] at h
    have he : [] ++ specElements 0 items last = es := Option.some.inj h
    rw [← he]
    exact hh

/-- The result of `parse_name` from the parsed elements, when the primitive
accepts every entry. -/
theorem parse_name_of_parsed (lib : OpenSSL) (s : List Char) (chtype : Int) (m r : Bool)
    (es : List NameElement) (h : parsedElements m s = some es)
    (hok : ∀ n e, lib.add_entry_ok n e = true) :
    parse_name lib s chtype m r =
      if (visitOrder r es).filter (survives lib) = [] then .error .noValuableField
      else .ok (((visitOrder r es).filter (survives lib)).map (entryOf lib chtype)) := by
  obtain ⟨st, ht, hh⟩ := holds_of_parsed m s es h
  simp only [parse_name, ht]
  rw [loop_eq_elements lib chtype st es hh r, foldlM_addElem_ok lib chtype hok]
  simp

theorem filter_visitOrder (lib : OpenSSL) (r : Bool) (es : List NameElement) :
    (visitOrder r es).filter (survives lib) = visitOrder r (es.filter (survives lib)) := by
  cases r <;> simp [visitOrder, List.filter_reverse]

theorem visitOrder_eq_nil (r : Bool) (es : List NameElement) :
    visitOrder r es = [] ↔ es = [] := by
  cases r <;> simp [visitOrder]

theorem push_ne_num (st : TokState) (e : RawElement) : (st.push e).ne_num = st.ne_num + 1 := rfl

theorem foldl_push_ne_num (items : List RawElement) :
    ∀ st : TokState, (items.foldl TokState.push st).ne_num = st.ne_num + items.length := by
  induction items with
  | nil => intro st; rfl
  | cons e items ih =>
    intro st
    rw [List.foldl_cons, ih, push_ne_num, List.length_cons]
    omega

theorem collectType_eq_cons (m : Bool) (st : TokState) (ty sp : List Char) (h : sp ≠ []) :
    collectType m st ty ('=' :: sp) = collectValue m (st.endType ty) [] sp := by
  cases sp with
  | nil => exact absurd rfl h
  | cons c r => simp [collectType_cons]

/-- A text without backslash followed by a lone backslash: both loops leave at
their "escape character at end of string" exit. -/
theorem collect_trailing_backslash (m : Bool) (sp : List Char) :
    '\\' ∉ sp →
      (∀ (st : TokState) (ty : List Char),
        ∃ st', collectType m st ty (sp ++ ['\\']) = .error (.escapeAtEnd, st')) ∧
      (∀ (st : TokState) (v : List Char),
        ∃ st', collectValue m st v (sp ++ ['\\']) = .error (.escapeAtEnd, st')) := by
  induction sp with
  | nil =>
    intro _
    exact ⟨fun st ty => ⟨st, by simp [collectType_cons]⟩,
      fun st v => ⟨st, by simp [collectValue_cons]⟩⟩
  | cons c sp ih =>
    intro h
    have hc : ¬ c = '\\' := fun hc => h (by simp [hc])
    have hsp : '\\' ∉ sp := fun hh => h (List.mem_cons_of_mem _ hh)
    obtain ⟨ihT, ihV⟩ := ih hsp
    have hne : sp ++ ['\\'] ≠ [] := by simp
    constructor
    · intro st ty
      by_cases he : c = '='
      · subst he
        rw [List.cons_append, collectType_eq_cons m st ty _ hne]
        exact ihV _ _
      · rw [List.cons_append, collectType_cons, if_neg hc, if_neg he]
        exact ihT _ _
    · intro st v
      rw [List.cons_append, collectValue_cons, if_neg hc]
      by_cases h1 : c = '/'
      · rw [if_pos h1, nameLoop_of_ne_nil m _ _ hne]
        exact ihT _ _
      · rw [if_neg h1]
        by_cases h2 : c = '+' ∧ m = true
        · rw [if_pos h2, nameLoop_of_ne_nil m _ _ hne]
          exact ihT _ _
        · rw [if_neg h2]
          exact ihV _ _

theorem specElements_length (items : List RawElement) (last : Option RawLast) :
    ∀ f : Int, (specElements f items last).length = items.length + last.toList.length := by
  induction items with
  | nil => intro f; cases last <;> simp [specElements]
  | cons e items ih => intro f; simp [specElements, ih]; omega

theorem specElements_head (items : List RawElement) (last : Option RawLast) (f : Int)
    (e : NameElement) (h : (specElements f items last)[0]? = some e) : e.mval = f := by
  cases items with
  | nil =>
    cases last with
    | none => simp [specElements] at h
    | some l =>
      have : (⟨unescape l.type, unescape l.value, f⟩ : NameElement) = e := by
        simpa [specElements] using h
      rw [← this]
  | cons x items =>
    have : (⟨unescape x.type, unescape x.value, f⟩ : NameElement) = e := by
      simpa [specElements] using h
    rw [← this]

theorem specElements_succ (items : List RawElement) (last : Option RawLast) :
    ∀ (f : Int) (i : Nat) (it : RawElement) (e : NameElement), items[i]? = some it →
      (specElements f items last)[i + 1]? = some e → e.mval = sepFlag it.sep := by
  induction items with
  | nil => intro f i it e h; simp at h
  | cons x items ih =>
    intro f i it e h1 h2
    have h2' : (specElements (sepFlag x.sep) items last)[i]? = some e := by
      simpa [specElements] using h2
    cases i with
    | zero =>
      have hx : x = it := by simpa using h1
      rw [← hx]
      exact specElements_head items last _ e h2'
    | succ k =>
      have h1' : items[k]? = some it := by simpa using h1
      exact ih _ k it e h1' h2'

theorem foldlM_addElem_error (lib : OpenSSL) (chtype : Int) (l : List NameElement) :
    ∀ (acc : X509_NAME × Nat) (err : ParseError),
      l.foldlM (addElem lib chtype) acc = .error err → err = .addEntryFailed := by
  induction l with
  | nil => intro acc err h; simp [pure, Except.pure] at h
  | cons e l ih =>
    intro acc err h
    rw [List.foldlM_cons] at h
    cases hs : addElem lib chtype acc e with
    | error x =>
      rw [hs] at h
      have hx : x = err := by simpa [bind, Except.bind] using h
      rw [← hx]
      simp only [addElem] at hs
      split at hs
      · split at hs
        · exact (Except.error.inj hs).symm
        · simp at hs
      · simp at hs
    | ok acc' =>
      rw [hs] at h
      exact ih acc' err h

theorem mapChars_putc (f : Char → Char) (st : TokState) :
    (st.putc).mapChars f = (st.mapChars f).putc := rfl

theorem mapChars_endType (f : Char → Char) (st : TokState) (ty : List Char) :
    (st.endType ty).mapChars f = (st.mapChars f).endType (ty.map f) := by
  simp [TokState.endType, TokState.mapChars]

theorem mapChars_endValue (f : Char → Char) (st : TokState) (v : List Char) :
    (st.endValue v).mapChars f = (st.mapChars f).endValue (v.map f) := by
  simp [TokState.endValue, TokState.mapChars]

theorem mapChars_setNext (f : Char → Char) (st : TokState) (k : Int) :
    (st.setNext k).mapChars f = (st.mapChars f).setNext k := rfl

theorem nameLoop_map_of (f : Char → Char) (sp : List Char)
    (h : ∀ (st : TokState) (ty : List Char),
      collectType false (st.mapChars f) (ty.map f) (sp.map f) =
        mapOutcome f (collectType false st ty sp)) (st : TokState) :
    nameLoop false (st.mapChars f) (sp.map f) = mapOutcome f (nameLoop false st sp) := by
  cases sp with
  | nil => rfl
  | cons c r => exact h st []

/-- Without multi-valued RDNs both loops commute with every renaming of
characters that keeps backslash, `=` and `/` apart from the other characters.
-/
theorem collect_map (f : Char → Char)
    (hf : ∀ c, (f c = '\\' ↔ c = '\\') ∧ (f c = '=' ↔ c = '=') ∧ (f c = '/' ↔ c = '/'))
    (sp : List Char) :
    (∀ (st : TokState) (ty : List Char),
      collectType false (st.mapChars f) (ty.map f) (sp.map f) =
        mapOutcome f (collectType false st ty sp)) ∧
    (∀ (st : TokState) (v : List Char),
      collectValue false (st.mapChars f) (v.map f) (sp.map f) =
        mapOutcome f (collectValue false st v sp)) := by
  have hb : f '\\' = '\\' := (hf '\\').1.mpr rfl
  induction sp using unescape.induct with
  | case1 =>
    exact ⟨fun st ty => by simp [collectType_nil, mapOutcome, TokState.mapChars],
      fun st v => by simp [collectValue_nil, mapOutcome, mapChars_endValue]⟩
  | case2 =>
    exact ⟨fun st ty => by simp [collectType_cons, hb, mapOutcome],
      fun st v => by simp [collectValue_cons, hb, mapOutcome]⟩
  | case3 c sp ih =>
    constructor
    · intro st ty
      have := ih.1 st.putc (ty ++ [c])
      simpa [collectType_cons, hb, mapChars_putc] using this
    · intro st v
      have := ih.2 st.putc (v ++ [c])
      simpa [collectValue_cons, hb, mapChars_putc] using this
  | case4 c sp hc ih =>
    have hc' : ¬ f c = '\\' := fun h => hc ((hf c).1.mp h)
    constructor
    · intro st ty
      rw [List.map_cons, collectType_cons, collectType_cons, if_neg hc, if_neg hc']
      by_cases he : c = '='
      · have he' : f c = '=' := (hf c).2.1.mpr he
        rw [if_pos he, if_pos he']
        cases sp with
        | nil => simp [mapOutcome, mapChars_endType, TokState.endType, TokState.mapChars]
        | cons d r =>
          have := ih.2 (st.endType ty) []
          simpa [mapChars_endType] using this
      · have he' : ¬ f c = '=' := fun h => he ((hf c).2.1.mp h)
        rw [if_neg he, if_neg he']
        have := ih.1 st.putc (ty ++ [c])
        simpa [mapChars_putc] using this
    · intro st v
      rw [List.map_cons, collectValue_cons, collectValue_cons, if_neg hc, if_neg hc']
      by_cases he : c = '/'
      · have he' : f c = '/' := (hf c).2.2.mpr he
        rw [if_pos he, if_pos he']
        have := nameLoop_map_of f sp ih.1 ((st.setNext 0).endValue v)
        simpa [mapChars_endValue, mapChars_setNext] using this
      · have he' : ¬ f c = '/' := fun h => he ((hf c).2.2.mp h)
        rw [if_neg he, if_neg he', if_neg (by simp), if_neg (by simp)]
        have := ih.2 st.putc (v ++ [c])
        simpa [mapChars_putc] using this

theorem tokenize_map (f : Char → Char)
    (hf : ∀ c, (f c = '\\' ↔ c = '\\') ∧ (f c = '=' ↔ c = '=') ∧ (f c = '/' ↔ c = '/'))
    (s : List Char) :
    tokenize false (s.map f) = mapOutcome f (tokenize false s) := by
  cases s with
  | nil => rfl
  | cons c sp =>
    by_cases he : c = '/'
    · have he' : f c = '/' := (hf c).2.2.mpr he
      subst he
      rw [List.map_cons, he', tokenize_slash, tokenize_slash]
      exact nameLoop_map_of f sp (collect_map f hf sp).1 TokState.init
    · have he' : ¬ f c = '/' := fun h => he ((hf c).2.2.mp h)
      simp [tokenize, he, he', mapOutcome, TokState.mapChars, TokState.blank]

theorem mapM_option_map {α β : Type} (g : Nat → Option α) (h : α → β) (l : List Nat) :
    l.mapM (fun i => (g i).map h) = (l.mapM g).map (List.map h) := by
  induction l with
  | nil => rfl
  | cons i l ih =>
    rw [List.mapM_cons, List.mapM_cons, ih]
    cases g i with
    | none => rfl
    | some a =>
      cases l.mapM g with
      | none => rfl
      | some as => rfl

theorem element_mapChars (f : Char → Char) (st : TokState) (i : Nat) :
    (st.mapChars f).element i = (st.element i).map (NameElement.mapChars f) := by
  simp only [TokState.element, TokState.mapChars, TokState.readMval, List.getElem?_map]
  cases st.ne_types[i]? <;> cases st.ne_values[i]? <;> cases (st.mval[i]?).join <;>
    simp [NameElement.mapChars]

theorem elements_mapChars (f : Char → Char) (st : TokState) :
    (st.mapChars f).elements = st.elements.map (List.map (NameElement.mapChars f)) := by
  have : (st.mapChars f).element = fun i => (st.element i).map (NameElement.mapChars f) :=
    funext (element_mapChars f st)
  rw [TokState.elements, this, mapM_option_map]
  rfl

theorem specElements_flags (items : List RawElement) (last : Option RawLast) :
    ∀ (f : Int) (e : NameElement), e ∈ specElements f items last →
      e.mval = f ∨ ∃ it ∈ items, e.mval = sepFlag it.sep := by
  induction items with
  | nil =>
    intro f e he
    cases last with
    | none => simp [specElements] at he
    | some l =>
      have : e = ⟨unescape l.type, unescape l.value, f⟩ := by simpa [specElements] using he
      left; rw [this]
  | cons x items ih =>
    intro f e he
    rcases List.mem_cons.mp he with h | h
    · left; rw [h]
    · rcases ih _ e h with h' | ⟨it, hit, h'⟩
      · right; exact ⟨x, List.mem_cons_self _ _, h'⟩
      · right; exact ⟨it, List.mem_cons_of_mem _ hit, h'⟩

/-- Whatever the primitive accepts, a run of the element-wise loop that
completes has appended the entries of the surviving elements, in the order
visited, and counted them. -/
theorem foldlM_addElem_ok_inv (lib : OpenSSL) (chtype : Int) (l : List NameElement) :
    ∀ (acc res : X509_NAME × Nat), l.foldlM (addElem lib chtype) acc = .ok res →
      res = (acc.1 ++ (l.filter (survives lib)).map (entryOf lib chtype),
        acc.2 + (l.filter (survives lib)).length) := by
  induction l with
  | nil =>
    intro acc res h
    have : acc = res := by simpa [pure, Except.pure] using h
    simp [← this]
  | cons e l ih =>
    intro acc res h
    rw [List.foldlM_cons] at h
    by_cases hs : survives lib e = true
    · simp only [addElem, hs, if_true, X509_NAME_add_entry_by_NID] at h
      by_cases hk : lib.add_entry_ok acc.1
          ⟨lib.OBJ_txt2nid e.type_label, chtype, e.value, -1, e.mval⟩ = true
      · simp only [hk, if_true, bind, Except.bind] at h
        rw [ih _ res h]
        simp [List.filter_cons, hs, entryOf, Nat.add_assoc, Nat.add_comm]
      · simp [hk, bind, Except.bind] at h
    · have hs' : survives lib e = false := by simpa using hs
      simp only [addElem, hs', Bool.false_eq_true, if_false, bind, Except.bind] at h
      rw [ih _ res h]
      simp [List.filter_cons, hs']

/-- Whatever the primitive accepts, a name returned by `parse_name` consists of
the entries of the surviving elements, in visiting order. -/
theorem parse_name_ok_inv (lib : OpenSSL) (s : List Char) (chtype : Int) (m r : Bool)
    (es : List NameElement) (h : parsedElements m s = some es) (n : X509_NAME)
    (hn : parse_name lib s chtype m r = .ok n) :
    n = ((visitOrder r es).filter (survives lib)).map (entryOf lib chtype) := by
  obtain ⟨st, ht, hh⟩ := holds_of_parsed m s es h
  simp only [parse_name, ht] at hn
  rw [loop_eq_elements lib chtype st es hh r] at hn
  cases hf : (visitOrder r es).foldlM (addElem lib chtype) ([], 0) with
  | error err => rw [hf] at hn; simp at hn
  | ok res =>
    rw [hf] at hn
    have hres := foldlM_addElem_ok_inv lib chtype _ _ _ hf
    obtain ⟨n', k⟩ := res
    by_cases hk : k = 0
    · simp [hk] at hn
    · simp only [hk, if_false] at hn
      have h1 : n' = n := Except.ok.inj hn
      have h2 := congrArg Prod.fst hres
      simp at h2
      rw [← h1, h2]

/-- A subject has parsed elements exactly when it tokenizes. -/
theorem parsedElements_isSome_iff (m : Bool) (s : List Char) :
    (∃ es, parsedElements m s = some es) ↔ ∃ st, tokenize m s = .ok st := by
  constructor
  · rintro ⟨es, h⟩
    obtain ⟨st, ht, _⟩ := holds_of_parsed m s es h
    exact ⟨st, ht⟩
  · rintro ⟨st, ht⟩
    obtain ⟨items, last, w1, w2, w3⟩ := tokenize_ok_inv m s st ht
    exact ⟨_, by rw [w3]; exact parsedElements_render m items last w1 w2⟩

theorem rawField_mono (stop1 stop2 : Char → Bool) (hs : ∀ c, stop2 c = true → stop1 c = true)
    (r : List Char) : rawField stop1 r = true → rawField stop2 r = true := by
  induction r using unescape.induct with
  | case1 => intro _; rfl
  | case2 => intro h; simp [rawField] at h
  | case3 c sp ih => intro h; rw [rawField_esc] at h ⊢; exact ih h
  | case4 c sp hc ih =>
    intro h
    rw [rawField_plain _ _ _ hc] at h ⊢
    simp only [Bool.and_eq_true, Bool.not_eq_true'] at h ⊢
    refine ⟨?_, ih h.2⟩
    cases h2 : stop2 c with
    | false => rfl
    | true => rw [hs c h2] at h; simp at h

theorem unescape_of_no_backslash (r : List Char) (h : '\\' ∉ r) : unescape r = r := by
  induction r with
  | nil => rfl
  | cons c r ih =>
    have hc : ¬ c = '\\' := fun hc => h (by simp [hc])
    rw [unescape_plain _ _ hc, ih (fun hh => h (List.mem_cons_of_mem _ hh))]

theorem rawField_no_backslash (stop : Char → Bool) (r : List Char) (h : '\\' ∉ r)
    (hr : rawField stop r = true) : ∀ c ∈ r, stop c = false := by
  induction r with
  | nil => intro c hc; simp at hc
  | cons d r ih =>
    have hd : ¬ d = '\\' := fun hd => h (by simp [hd])
    rw [rawField_plain _ _ _ hd] at hr
    simp only [Bool.and_eq_true, Bool.not_eq_true'] at hr
    intro c hc
    rcases List.mem_cons.mp hc with hc | hc
    · rw [hc]; exact hr.1
    · exact ih (fun hh => h (List.mem_cons_of_mem _ hh)) hr.2 c hc

theorem specElements_value (items : List RawElement) (last : Option RawLast) :
    ∀ (f : Int) (x : NameElement), x ∈ specElements f items last →
      (∃ e ∈ items, x.value = unescape e.value) ∨
        (∃ l, last = some l ∧ x.value = unescape l.value) := by
  induction items with
  | nil =>
    intro f x hx
    cases last with
    | none => simp [specElements] at hx
    | some l =>
      have : x = ⟨unescape l.type, unescape l.value, f⟩ := by simpa [specElements] using hx
      right; exact ⟨l, rfl, by rw [this]⟩
  | cons e items ih =>
    intro f x hx
    rcases List.mem_cons.mp hx with h | h
    · left; exact ⟨e, List.mem_cons_self _ _, by rw [h]⟩
    · rcases ih _ x h with ⟨e', he', h'⟩ | h'
      · left; exact ⟨e', List.mem_cons_of_mem _ he', h'⟩
      · right; exact h'

theorem value_subset_render (items : List RawElement) (last : Option RawLast) :
    (∀ e ∈ items, ∀ c ∈ e.value, c ∈ renderSubject items last) ∧
      (∀ l, last = some l → ∀ c ∈ l.value, c ∈ renderSubject items last) := by
  constructor
  · intro e he c hc
    simp only [renderSubject, List.mem_cons, List.mem_append, List.mem_flatMap]
    right; left
    exact ⟨e, he, by simp [RawElement.render, hc]⟩
  · intro l hl c hc
    simp only [renderSubject, List.mem_cons, List.mem_append]
    right; right
    simp [hl, renderLast, RawLast.render, hc]

/-! ## Bounds on the copy buffer and on the array indices -/

theorem finalState_nameLoop_bp (m : Bool) (sp : List Char)
    (h : ∀ (st : TokState) (ty : List Char),
      (finalState (collectType m st ty sp)).bp ≤ st.bp + sp.length + 1) (st : TokState) :
    (finalState (nameLoop m st sp)).bp ≤ st.bp + sp.length + 1 := by
  cases sp with
  | nil => simp [nameLoop, finalState]
  | cons c r => exact h st []

/-- Neither loop writes more bytes than it reads characters, plus one for the
terminator of a value that runs to the end of the string. -/
theorem collect_bp (m : Bool) (sp : List Char) :
    (∀ (st : TokState) (ty : List Char),
      (finalState (collectType m st ty sp)).bp ≤ st.bp + sp.length + 1) ∧
    (∀ (st : TokState) (v : List Char),
      (finalState (collectValue m st v sp)).bp ≤ st.bp + sp.length + 1) := by
  induction sp using unescape.induct with
  | case1 =>
    exact ⟨fun st ty => by simp [collectType_nil, finalState],
      fun st v => by simp [collectValue_nil, finalState, TokState.endValue]⟩
  | case2 =>
    exact ⟨fun st ty => by simp only [collectType_cons, if_true, finalState]; omega,
      fun st v => by simp only [collectValue_cons, if_true, finalState]; omega⟩
  | case3 c sp ih =>
    constructor
    · intro st ty
      have := ih.1 st.putc (ty ++ [c])
      simp only [collectType_cons, if_true, List.length_cons]
      simp only [TokState.putc] at this ⊢
      omega
    · intro st v
      have := ih.2 st.putc (v ++ [c])
      simp only [collectValue_cons, if_true, List.length_cons]
      simp only [TokState.putc] at this ⊢
      omega
  | case4 c sp hc ih =>
    constructor
    · intro st ty
      rw [collectType_cons, if_neg hc]
      by_cases he : c = '='
      · rw [if_pos he]
        cases sp with
        | nil => simp [finalState, TokState.endType]
        | cons d r =>
          have := ih.2 (st.endType ty) []
          simp only [TokState.endType, List.length_cons] at this ⊢
          omega
      · rw [if_neg he]
        have := ih.1 st.putc (ty ++ [c])
        simp only [TokState.putc, List.length_cons] at this ⊢
        omega
    · intro st v
      rw [collectValue_cons, if_neg hc]
      by_cases h1 : c = '/'
      · rw [if_pos h1]
        have := finalState_nameLoop_bp m sp ih.1 ((st.setNext 0).endValue v)
        simp only [TokState.endValue, TokState.setNext, List.length_cons] at this ⊢
        omega
      · rw [if_neg h1]
        by_cases h2 : c = '+' ∧ m = true
        · rw [if_pos h2]
          have := finalState_nameLoop_bp m sp ih.1 ((st.setNext (-1)).endValue v)
          simp only [TokState.endValue, TokState.setNext, List.length_cons] at this ⊢
          omega
        · rw [if_neg h2]
          have := ih.2 st.putc (v ++ [c])
          simp only [TokState.putc, List.length_cons] at this ⊢
          omega

theorem writeAt_length_le (a : List (Option Int)) (i : Nat) (v : Int) :
    (writeAt a i v).length ≤ max a.length (i + 1) := by
  unfold writeAt
  split
  · simp
  · simp; omega

theorem inValue_of_inType (st : TokState) (h : InType st) : InValue st :=
  ⟨h.1, Nat.le_succ_of_le h.2.1, h.2.2⟩

theorem inType_putc (st : TokState) (h : InType st) : InType st.putc := h

theorem inValue_putc (st : TokState) (h : InValue st) : InValue st.putc := h

theorem inValue_endType (st : TokState) (ty : List Char) (h : InType st) :
    InValue (st.endType ty) := by
  obtain ⟨h1, h2, h3⟩ := h
  refine ⟨h1, ?_, h3⟩
  simp only [TokState.endType, List.length_append, List.length_singleton]
  omega

theorem inValue_endValue (st : TokState) (v : List Char) (h : InValue st) :
    InValue (st.endValue v) := by
  obtain ⟨h1, h2, h3⟩ := h
  refine ⟨?_, ?_, ?_⟩ <;>
    simp only [TokState.endValue, List.length_append, List.length_singleton] <;> omega

theorem inType_next (st : TokState) (v : List Char) (k : Int) (h : InValue st) :
    InType ((st.setNext k).endValue v) := by
  obtain ⟨h1, h2, h3⟩ := h
  have hw := writeAt_length_le st.mval (st.ne_num + 1) k
  refine ⟨?_, ?_, ?_⟩ <;>
    simp only [TokState.endValue, TokState.setNext, List.length_append,
      List.length_singleton] <;> omega

theorem nameLoop_idx_of (m : Bool) (sp : List Char)
    (h : ∀ (st : TokState) (ty : List Char), InType st →
      InValue (finalState (collectType m st ty sp)) ∧
        2 * (finalState (collectType m st ty sp)).ne_num ≤ 2 * st.ne_num + sp.length)
    (st : TokState) (hst : InType st) :
    InValue (finalState (nameLoop m st sp)) ∧
      2 * (finalState (nameLoop m st sp)).ne_num ≤ 2 * st.ne_num + sp.length := by
  cases sp with
  | nil => exact ⟨inValue_of_inType st hst, by simp [nameLoop, finalState]⟩
  | cons c r => exact h st [] hst

/-- Every completed element has used at least two characters of the subject,
and the cells in use stay at or below `ne_num`. -/
theorem collect_idx (m : Bool) (sp : List Char) :
    (∀ (st : TokState) (ty : List Char), InType st →
      InValue (finalState (collectType m st ty sp)) ∧
        2 * (finalState (collectType m st ty sp)).ne_num ≤ 2 * st.ne_num + sp.length) ∧
    (∀ (st : TokState) (v : List Char), InValue st → (v ≠ [] ∨ sp ≠ []) →
      InValue (finalState (collectValue m st v sp)) ∧
        2 * (finalState (collectValue m st v sp)).ne_num ≤
          2 * st.ne_num + sp.length + 1 + (if v = [] then 0 else 1)) := by
  induction sp using unescape.induct with
  | case1 =>
    constructor
    · intro st ty hst
      exact ⟨inValue_of_inType st hst, by simp [collectType_nil, finalState]⟩
    · intro st v hst hv
      have hv' : v ≠ [] := by
        rcases hv with hv | hv
        · exact hv
        · exact absurd rfl hv
      refine ⟨by simpa [collectValue_nil, finalState] using inValue_endValue st v hst, ?_⟩
      simp only [collectValue_nil, finalState, TokState.endValue, if_neg hv', List.length_nil]
      omega
  | case2 =>
    constructor
    · intro st ty hst
      exact ⟨by simpa [collectType_cons, finalState] using inValue_of_inType st hst,
        by simp [collectType_cons, finalState]⟩
    · intro st v hst _
      refine ⟨by simpa [collectValue_cons, finalState] using hst, ?_⟩
      simp only [collectValue_cons, if_true, finalState]
      omega
  | case3 c sp ih =>
    constructor
    · intro st ty hst
      have := ih.1 st.putc (ty ++ [c]) (inType_putc st hst)
      simp only [collectType_cons, if_true, List.length_cons]
      refine ⟨this.1, ?_⟩
      have h2 := this.2
      simp only [TokState.putc] at h2 ⊢
      omega
    · intro st v hst _
      have := ih.2 st.putc (v ++ [c]) (inValue_putc st hst) (Or.inl (by simp))
      simp only [collectValue_cons, if_true, List.length_cons]
      refine ⟨this.1, ?_⟩
      have h2 := this.2
      rw [if_neg (by simp)] at h2
      simp only [TokState.putc] at h2 ⊢
      split <;> omega
  | case4 c sp hc ih =>
    constructor
    · intro st ty hst
      rw [collectType_cons, if_neg hc]
      by_cases he : c = '='
      · rw [if_pos he]
        cases sp with
        | nil =>
          exact ⟨by simpa [finalState] using inValue_endType st ty hst,
            by simp [finalState, TokState.endType]⟩
        | cons d r =>
          have := ih.2 (st.endType ty) [] (inValue_endType st ty hst) (Or.inr (by simp))
          refine ⟨this.1, ?_⟩
          have h2 := this.2
          simp only [TokState.endType, List.length_cons, if_true] at h2 ⊢
          omega
      · rw [if_neg he]
        have := ih.1 st.putc (ty ++ [c]) (inType_putc st hst)
        refine ⟨this.1, ?_⟩
        have h2 := this.2
        simp only [TokState.putc, List.length_cons] at h2 ⊢
        omega
    · intro st v hst _
      rw [collectValue_cons, if_neg hc]
      by_cases h1 : c = '/'
      · rw [if_pos h1]
        have := nameLoop_idx_of m sp ih.1 _ (inType_next st v 0 hst)
        refine ⟨this.1, ?_⟩
        have h2 := this.2
        simp only [TokState.endValue, TokState.setNext, List.length_cons] at h2 ⊢
        split <;> omega
      · rw [if_neg h1]
        by_cases h2 : c = '+' ∧ m = true
        · rw [if_pos h2]
          have := nameLoop_idx_of m sp ih.1 _ (inType_next st v (-1) hst)
          refine ⟨this.1, ?_⟩
          have h3 := this.2
          simp only [TokState.endValue, TokState.setNext, List.length_cons] at h3 ⊢
          split <;> omega
        · rw [if_neg h2]
          have := ih.2 st.putc (v ++ [c]) (inValue_putc st hst) (Or.inl (by simp))
          refine ⟨this.1, ?_⟩
          have h3 := this.2
          rw [if_neg (by simp)] at h3
          simp only [TokState.putc, List.length_cons] at h3 ⊢
          split <;> omega

/-! ## The claims -/

/-- C1 (reversed append).  For every subject that tokenizes, into the elements
`es`, `parse_name` with `reverse = false` (the specification's
`legacy_order = false`) adds the surviving elements (known label, value not
empty) in the reverse of parse order, each at position `-1` (the tail) with its
own value and its own `mval` flag: a name it returns is exactly that sequence
of entries, and when the primitive accepts every entry it returns that name,
unless no element survives, where it leaves with "no valuable field". -/
theorem parse_name_reverse_order (lib : OpenSSL) (s : List Char) (chtype : Int) (m : Bool)
    (es : List NameElement) (h : parsedElements m s = some es) :
    (∀ n, parse_name lib s chtype m false = .ok n →
        n = ((es.filter (survives lib)).reverse).map
          (fun e => ⟨lib.OBJ_txt2nid e.type_label, chtype, e.value, -1, e.mval⟩)) ∧
      ((∀ n e, lib.add_entry_ok n e = true) →
        parse_name lib s chtype m false =
          if es.filter (survives lib) = [] then .error .noValuableField
          else .ok (((es.filter (survives lib)).reverse).map
            (fun e => ⟨lib.OBJ_txt2nid e.type_label, chtype, e.value, -1, e.mval⟩))) := by
  constructor
  · intro n hn
    rw [parse_name_ok_inv lib s chtype m false es h n hn, filter_visitOrder]
    rfl
  · intro hok
    rw [parse_name_of_parsed lib s chtype m false es h hok, filter_visitOrder]
    by_cases hc : es.filter (survives lib) = []
    · rw [if_pos hc, if_pos ((visitOrder_eq_nil false _).mpr hc)]
    · rw [if_neg hc, if_neg (fun hh => hc ((visitOrder_eq_nil false _).mp hh))]
      rfl

/-- C1 at `/CN=Alice/O=Org`: the first entry added is `O=Org`, the last is
`CN=Alice`. -/
theorem parse_name_reverse_order_witness :
    parsedElements false "/CN=Alice/O=Org".toList =
        some [⟨"CN".toList, "Alice".toList, 0⟩, ⟨"O".toList, "Org".toList, 0⟩] ∧
      (∀ n e, sampleLib.add_entry_ok n e = true) ∧
      parse_name sampleLib "/CN=Alice/O=Org".toList MBSTRING_UTF8 false false =
        .ok [⟨17, MBSTRING_UTF8, "Org".toList, -1, 0⟩, ⟨13, MBSTRING_UTF8, "Alice".toList, -1, 0⟩] :=
  ⟨by decide, fun _ _ => rfl,
    ((parse_name_reverse_order sampleLib "/CN=Alice/O=Org".toList MBSTRING_UTF8 false
      [⟨"CN".toList, "Alice".toList, 0⟩, ⟨"O".toList, "Org".toList, 0⟩] (by decide)).2
      (fun _ _ => rfl)).trans (by decide)⟩

/-- C3 (skipping and the empty result).  For every subject that tokenizes into
the elements `es`, a primitive that accepts every entry, and both orders:
`parse_name` succeeds exactly when some element has a known label and a value
that is not empty; a name it returns consists of exactly the surviving
elements, in visiting order; and when no element survives it leaves with "no
valuable field", which is `EmptyResult`. -/
theorem parse_name_succeeds_iff (lib : OpenSSL) (s : List Char) (chtype : Int) (m r : Bool)
    (es : List NameElement) (h : parsedElements m s = some es)
    (hok : ∀ n e, lib.add_entry_ok n e = true) :
    ((∃ n, parse_name lib s chtype m r = .ok n) ↔
        ∃ e ∈ es, lib.OBJ_txt2nid e.type_label ≠ NID_undef ∧ e.value ≠ []) ∧
      (∀ n, parse_name lib s chtype m r = .ok n →
        n = ((visitOrder r es).filter (survives lib)).map (entryOf lib chtype)) ∧
      ((∀ e ∈ es, ¬ (lib.OBJ_txt2nid e.type_label ≠ NID_undef ∧ e.value ≠ [])) →
        parse_name lib s chtype m r = .error .noValuableField ∧
          ParseError.kind .noValuableField = ErrorKind.EmptyResult) := by
  have hp := parse_name_of_parsed lib s chtype m r es h hok
  have hsurv : ∀ e, survives lib e = true ↔
      (lib.OBJ_txt2nid e.type_label ≠ NID_undef ∧ e.value ≠ []) := by
    intro e; simp [survives]
  have hnil : (visitOrder r es).filter (survives lib) = [] ↔
      ∀ e ∈ es, ¬ (lib.OBJ_txt2nid e.type_label ≠ NID_undef ∧ e.value ≠ []) := by
    rw [filter_visitOrder, visitOrder_eq_nil, List.filter_eq_nil_iff]
    constructor
    · intro hh e he hc; exact hh e he ((hsurv e).mpr hc)
    · intro hh e he hc; exact hh e he ((hsurv e).mp hc)
  refine ⟨?_, ?_, ?_⟩
  · constructor
    · rintro ⟨n, hn⟩
      by_contra hc
      have hall : ∀ e ∈ es, ¬ (lib.OBJ_txt2nid e.type_label ≠ NID_undef ∧ e.value ≠ []) := by
        intro e he hh; exact hc ⟨e, he, hh⟩
      rw [hp, if_pos (hnil.mpr hall)] at hn
      simp at hn
    · rintro ⟨e, he, hh⟩
      have hne : ¬ (visitOrder r es).filter (survives lib) = [] := by
        intro hc; exact (hnil.mp hc) e he hh
      exact ⟨_, by rw [hp, if_neg hne]⟩
  · intro n hn
    exact parse_name_ok_inv lib s chtype m r es h n hn
  · intro hall
    exact ⟨by rw [hp, if_pos (hnil.mpr hall)], rfl⟩

/-- C3 at `/XX=1/CN=A/O=` followed by `/`: the unknown label `XX` and the empty
value of `O` are skipped, `CN=A` survives; and at `/XX=1` nothing survives. -/
theorem parse_name_succeeds_iff_witness :
    parsedElements false "/XX=1/CN=A/O=/".toList =
        some [⟨"XX".toList, "1".toList, 0⟩, ⟨"CN".toList, "A".toList, 0⟩,
          ⟨"O".toList, [], 0⟩] ∧
      (∀ n e, sampleLib.add_entry_ok n e = true) ∧
      parse_name sampleLib "/XX=1/CN=A/O=/".toList MBSTRING_UTF8 false true =
        .ok [⟨13, MBSTRING_UTF8, "A".toList, -1, 0⟩] ∧
      parse_name sampleLib "/XX=1".toList MBSTRING_UTF8 false true = .error .noValuableField := by
  have h1 := parse_name_succeeds_iff sampleLib "/XX=1/CN=A/O=/".toList MBSTRING_UTF8 false true
    [⟨"XX".toList, "1".toList, 0⟩, ⟨"CN".toList, "A".toList, 0⟩, ⟨"O".toList, [], 0⟩]
    (by decide) (fun _ _ => rfl)
  have h2 := parse_name_succeeds_iff sampleLib "/XX=1".toList MBSTRING_UTF8 false true
    [⟨"XX".toList, "1".toList, 0⟩] (by decide) (fun _ _ => rfl)
  refine ⟨by decide, fun _ _ => rfl, ?_, ?_⟩
  · obtain ⟨n, hn⟩ := h1.1.mpr ⟨⟨"CN".toList, "A".toList, 0⟩, by decide, by decide, by decide⟩
    rw [hn, h1.2.1 n hn]
    decide
  · exact (h2.2.2 (by decide)).1

theorem rawField_esc_all (stop : Char → Bool) (t : List Char) : rawField stop (esc t) = true := by
  induction t with
  | nil => rfl
  | cons c t ih => simpa [esc, rawField_esc] using ih

theorem unescape_esc_all (t : List Char) : unescape (esc t) = t := by
  induction t with
  | nil => rfl
  | cons c t ih =>
    have : esc (c :: t) = '\\' :: c :: esc t := by simp [esc]
    rw [this, unescape_esc, ih]

theorem esc_ne_nil (v : List Char) (hv : v ≠ []) : esc v ≠ [] := by
  cases v with
  | nil => exact absurd rfl hv
  | cons c v => simp [esc]

/-- C2 (escaping round trip).  For every type `t`, every value `v` that is not
empty and both settings of `multirdn`, the subject `/` `esc t` `=` `esc v`
tokenizes into exactly one element, with label `t`, value `v` and an unset
flag; and `/CN=A\/B` tokenizes into the single element `CN` with value `A/B`.
-/
theorem tokenize_escaped_roundtrip (t v : List Char) (m : Bool) (hv : v ≠ []) :
    parsedElements m ('/' :: (esc t ++ '=' :: esc v)) = some [⟨t, v, 0⟩] ∧
      NameElement.multivalued ⟨t, v, 0⟩ = false ∧
      parsedElements m "/CN=A\\/B".toList = some [⟨"CN".toList, "A/B".toList, 0⟩] := by
  refine ⟨?_, by simp [NameElement.multivalued], by cases m <;> decide⟩
  have h := parsedElements_render m [] (some ⟨esc t, esc v⟩) (by simp)
    (by
      intro e he
      have : e = ⟨esc t, esc v⟩ := by simpa using he.symm
      subst this
      simp [RawLast.wf, rawField_esc_all, esc_ne_nil v hv])
  simpa [renderSubject, renderLast, RawLast.render, specElements, unescape_esc_all] using h

/-- C2 at the label `CN` and the value `A/B`, both fully escaped. -/
theorem tokenize_escaped_roundtrip_witness :
    "A/B".toList ≠ [] ∧
      parsedElements true "/\\C\\N=\\A\\/\\B".toList = some [⟨"CN".toList, "A/B".toList, 0⟩] :=
  ⟨by decide, (tokenize_escaped_roundtrip "CN".toList "A/B".toList true (by decide)).1⟩

/-- C5 as stated fails: on `/CN=A+OU=B` with multi-valued RDNs allowed, the
parsed list is not one whose first element is flagged and whose second is not.
-/
theorem flag_on_first_element_counterexample :
    ¬ ∃ e1 e2 : NameElement, parsedElements true "/CN=A+OU=B".toList = some [e1, e2] ∧
        e1.multivalued = true ∧ e2.multivalued = false := by
  rintro ⟨e1, e2, h, h1, _⟩
  have hp : parsedElements true "/CN=A+OU=B".toList =
      some [⟨"CN".toList, "A".toList, 0⟩, ⟨"OU".toList, "B".toList, -1⟩] := by decide
  rw [hp] at h
  have he : (⟨"CN".toList, "A".toList, 0⟩ : NameElement) = e1 := by
    have := Option.some.inj h
    exact (List.cons.inj this).1
  rw [← he] at h1
  exact absurd h1 (by decide)

/-- C5 (amended).  On `/CN=A+OU=B` with multi-valued RDNs allowed the tokenizer
produces exactly the two elements `(CN, A)` and `(OU, B)`; the flag is carried
by the second element, `OU=B` (`mval[1] = -1`, joining it to the element before
it), and the first element, `CN=A`, is not flagged (`mval[0] = 0`). -/
theorem flag_on_second_element :
    parsedElements true "/CN=A+OU=B".toList =
        some [⟨"CN".toList, "A".toList, 0⟩, ⟨"OU".toList, "B".toList, -1⟩] ∧
      NameElement.multivalued ⟨"CN".toList, "A".toList, 0⟩ = false ∧
      NameElement.multivalued ⟨"OU".toList, "B".toList, -1⟩ = true := by
  refine ⟨by decide, by decide, by decide⟩

/-- C7 (`+` is an ordinary character without multi-valued RDNs).  With
`multirdn = false`: the parsed list commutes with every renaming of characters
that keeps backslash, `=` and `/` apart from the others, so `+` is read like
any character that is not one of these three; no element of a subject that
tokenizes is flagged; and `/CN=A+OU=B` yields the single element `CN` with the
value `A+OU=B`. -/
theorem plus_is_literal (f : Char → Char)
    (hf : ∀ c, (f c = '\\' ↔ c = '\\') ∧ (f c = '=' ↔ c = '=') ∧ (f c = '/' ↔ c = '/'))
    (s : List Char) :
    parsedElements false (s.map f) =
        (parsedElements false s).map (List.map (NameElement.mapChars f)) ∧
      (∀ es, parsedElements false s = some es → ∀ e ∈ es, e.multivalued = false) ∧
      parsedElements false "/CN=A+OU=B".toList = some [⟨"CN".toList, "A+OU=B".toList, 0⟩] := by
  refine ⟨?_, ?_, by decide⟩
  · rw [parsedElements, parsedElements, tokenize_map f hf s]
    cases tokenize false s with
    | error e => rfl
    | ok st => exact elements_mapChars f st
  · intro es h e he
    obtain ⟨st, ht, _⟩ := holds_of_parsed false s es h
    obtain ⟨items, last, w1, w2, w3⟩ := tokenize_ok_inv false s st ht
    have hp := parsedElements_render false items last w1 w2
    rw [← w3, h] at hp
    have hes : es = specElements 0 items last := Option.some.inj hp
    rw [hes] at he
    rcases specElements_flags items last 0 e he with h0 | ⟨it, hit, h0⟩
    · simp [NameElement.multivalued, h0]
    · have hw := w1 it hit
      simp only [RawElement.wf, Bool.and_eq_true] at hw
      have hs : it.sep = '/' := by simpa [valueStop] using hw.2
      simp [NameElement.multivalued, h0, sepFlag, hs]

/-- C7 at the renaming that exchanges `+` and `x`: `/CN=AxOU=B` is read like
`/CN=A+OU=B`. -/
theorem plus_is_literal_witness :
    (∀ c, (swapPlus c = '\\' ↔ c = '\\') ∧ (swapPlus c = '=' ↔ c = '=') ∧
        (swapPlus c = '/' ↔ c = '/')) ∧
      parsedElements false "/CN=AxOU=B".toList = some [⟨"CN".toList, "AxOU=B".toList, 0⟩] ∧
      parsedElements false "/CN=A+OU=B".toList = some [⟨"CN".toList, "A+OU=B".toList, 0⟩] := by
  have hf : ∀ c, (swapPlus c = '\\' ↔ c = '\\') ∧ (swapPlus c = '=' ↔ c = '=') ∧
      (swapPlus c = '/' ↔ c = '/') := by
    intro c
    by_cases h1 : c = '+'
    · subst h1; decide
    · by_cases h2 : c = 'x'
      · subst h2; decide
      · simp [swapPlus, h1, h2]
  have h := plus_is_literal swapPlus hf "/CN=A+OU=B".toList
  refine ⟨hf, ?_, h.2.2⟩
  have h1 := h.1
  rw [h.2.2] at h1
  exact h1

/-- C8 (leading slash).  For every subject that does not begin with `/`, the
empty one included, and every setting of the two flags, `parse_name` leaves at
line 94, which is `MalformedInput`, and `pkcs11_X509_check_DN` returns false.
-/
theorem parse_name_no_leading_slash (lib : OpenSSL) (s : List Char) (chtype : Int) (m r : Bool)
    (h : s.head? ≠ some '/') :
    parse_name lib s chtype m r = .error .noLeadingSlash ∧
      ParseError.kind .noLeadingSlash = ErrorKind.MalformedInput ∧
      pkcs11_X509_check_DN lib s = false := by
  have ht : ∀ m', tokenize m' s = .error (.noLeadingSlash, TokState.blank) := by
    intro m'
    cases s with
    | nil => rfl
    | cons c sp =>
      have hc : ¬ c = '/' := by
        intro hc; exact h (by simp [hc])
      simp [tokenize, hc]
  refine ⟨by simp [parse_name, ht], rfl, by simp [pkcs11_X509_check_DN, parse_name, ht]⟩

/-- C8 at `no-leading-slash` and at the empty subject. -/
theorem parse_name_no_leading_slash_witness :
    "no-leading-slash".toList.head? ≠ some '/' ∧
      pkcs11_X509_check_DN sampleLib "no-leading-slash".toList = false ∧
      parse_name sampleLib [] MBSTRING_UTF8 true true = .error .noLeadingSlash :=
  ⟨by decide,
    (parse_name_no_leading_slash sampleLib "no-leading-slash".toList MBSTRING_UTF8 false false
      (by decide)).2.2,
    (parse_name_no_leading_slash sampleLib [] MBSTRING_UTF8 true true (by decide)).1⟩

/-- C9 (unterminated type field).  When the subject consists of `/`, then
well-formed elements each followed by its separator, then a fragment `t` that
is not empty and has no unescaped `=`, the end of the string is reached while
the type is collected: `parse_name` leaves at line 128, which is
`MalformedInput`, and the element number reported there is the number of
elements read completely before. -/
theorem parse_name_unterminated_type (lib : OpenSSL) (chtype : Int) (m r : Bool)
    (items : List RawElement) (t : List Char) (hi : ∀ e ∈ items, e.wf m = true)
    (ht : rawField typeStop t = true) (hne : t ≠ []) :
    parse_name lib ('/' :: (items.flatMap RawElement.render ++ t)) chtype m r =
        .error (.typeEndOfString items.length) ∧
      ParseError.kind (.typeEndOfString items.length) = ErrorKind.MalformedInput := by
  refine ⟨?_, rfl⟩
  have h : tokenize m ('/' :: (items.flatMap RawElement.render ++ t)) =
      .error (.typeEndOfString items.length,
        (items.foldl TokState.push TokState.init).putn (unescape t).length) := by
    rw [tokenize_slash, nameLoop_elements m items _ _ hi, nameLoop_of_ne_nil m _ _ hne,
      collectType_eos m t _ [] ht, foldl_push_ne_num]
    simp [TokState.init]
  simp [parse_name, h]

/-- C9 at `/CN=A/OU` (element number 1) and at `/CN` (element number 0). -/
theorem parse_name_unterminated_type_witness :
    parse_name sampleLib "/CN=A/OU".toList MBSTRING_UTF8 true false =
        .error (.typeEndOfString 1) ∧
      parse_name sampleLib "/CN".toList MBSTRING_UTF8 false false = .error (.typeEndOfString 0) :=
  ⟨(parse_name_unterminated_type sampleLib MBSTRING_UTF8 true false
      [⟨"CN".toList, "A".toList, '/'⟩] "OU".toList (by decide) (by decide) (by decide)).1,
    (parse_name_unterminated_type sampleLib MBSTRING_UTF8 false false [] "CN".toList
      (by decide) (by decide) (by decide)).1⟩

/-- C10 (dangling escape).  For every subject `s` that begins with `/` and
contains no backslash, and for every setting of the two flags, `parse_name` on
`s` followed by a lone backslash leaves at an "escape character at end of
string" exit, which is `MalformedInput`, whether the backslash falls in a type
or in a value. -/
theorem parse_name_dangling_escape (lib : OpenSSL) (s : List Char) (chtype : Int) (m r : Bool)
    (h1 : s.head? = some '/') (h2 : '\\' ∉ s) :
    parse_name lib (s ++ ['\\']) chtype m r = .error .escapeAtEnd ∧
      ParseError.kind .escapeAtEnd = ErrorKind.MalformedInput := by
  refine ⟨?_, rfl⟩
  cases s with
  | nil => simp at h1
  | cons c sp =>
    have hc : c = '/' := by simpa using h1
    subst hc
    have hsp : '\\' ∉ sp := fun hh => h2 (List.mem_cons_of_mem _ hh)
    obtain ⟨st', hst⟩ := (collect_trailing_backslash m sp hsp).1 TokState.init []
    have ht : tokenize m ('/' :: (sp ++ ['\\'])) = .error (.escapeAtEnd, st') := by
      rw [tokenize_slash, nameLoop_of_ne_nil m _ _ (by simp), hst]
    simp [parse_name, ht]

/-- C10 with the backslash in a value (`/CN=A`) and in a type (`/CN=A/O`). -/
theorem parse_name_dangling_escape_witness :
    ("/CN=A".toList.head? = some '/' ∧ '\\' ∉ "/CN=A".toList) ∧
      parse_name sampleLib "/CN=A\\".toList MBSTRING_UTF8 true false = .error .escapeAtEnd ∧
      parse_name sampleLib "/CN=A/O\\".toList MBSTRING_UTF8 false true = .error .escapeAtEnd :=
  ⟨⟨by decide, by decide⟩,
    (parse_name_dangling_escape sampleLib "/CN=A".toList MBSTRING_UTF8 true false
      (by decide) (by decide)).1,
    (parse_name_dangling_escape sampleLib "/CN=A/O".toList MBSTRING_UTF8 false true
      (by decide) (by decide)).1⟩

/-- C4 evaluated on the code.  An empty value in last position is fatal: on
`/CN=A/O=` and on `/CN=` the function leaves at line 128 ("end of string
encountered while processing type"), which is `MalformedInput` and not
`EmptyResult`, for every registry and every setting of the flags; so
`pkcs11_X509_check_DN` is false on `/CN=`.  An empty value that is followed by
a separator is skipped: `/O=/CN=A` yields the single entry `CN=A`. -/
theorem parse_name_trailing_empty_value (lib : OpenSSL) (chtype : Int) (m r : Bool) :
    parse_name lib "/CN=A/O=".toList chtype m r = .error (.typeEndOfString 1) ∧
      parse_name lib "/CN=".toList chtype m r = .error (.typeEndOfString 0) ∧
      ParseError.kind (.typeEndOfString 0) = ErrorKind.MalformedInput ∧
      pkcs11_X509_check_DN lib "/CN=".toList = false ∧
      parse_name sampleLib "/O=/CN=A".toList MBSTRING_UTF8 m r =
        .ok [⟨13, MBSTRING_UTF8, "A".toList, -1, 0⟩] := by
  have h1 : ∃ st, tokenize m "/CN=A/O=".toList = .error (.typeEndOfString 1, st) := by
    cases m <;> exact ⟨_, rfl⟩
  have h2 : ∀ m', ∃ st, tokenize m' "/CN=".toList = .error (.typeEndOfString 0, st) := by
    intro m'; cases m' <;> exact ⟨_, rfl⟩
  obtain ⟨st1, e1⟩ := h1
  obtain ⟨st2, e2⟩ := h2 m
  obtain ⟨st3, e3⟩ := h2 false
  refine ⟨by rw [parse_name, e1], by rw [parse_name, e2], rfl,
    by rw [pkcs11_X509_check_DN, parse_name, e3], by cases m <;> cases r <;> decide⟩

/-- C6 (flag placement).  Every subject that tokenizes is the text of
well-formed elements `items` (each followed by the unescaped separator that
ended its value) and possibly of a last element; all the cells of indices
`0 .. ne_num-1` read back, as elements `es`; the first element is not flagged;
element `i+1` is flagged exactly when `multirdn` is true and the separator that
ended the value of element `i` is `+`, and is not flagged when that separator
is `/`; and `parse_name` never reads an unwritten cell. -/
theorem flag_placement (m : Bool) (s : List Char) (st : TokState) (h : tokenize m s = .ok st) :
    ∃ (items : List RawElement) (last : Option RawLast) (es : List NameElement),
      s = renderSubject items last ∧ (∀ e ∈ items, RawElement.wf m e = true) ∧
        (∀ e, last = some e → RawLast.wf m e = true) ∧
        st.elements = some es ∧ es.length = items.length + last.toList.length ∧
        (∀ e, es[0]? = some e → e.multivalued = false) ∧
        (∀ i it e, items[i]? = some it → es[i + 1]? = some e →
          (e.multivalued = true ↔ (m = true ∧ it.sep = '+')) ∧
            (it.sep = '/' → e.multivalued = false)) ∧
        (∀ lib chtype r, parse_name lib s chtype m r ≠ .error .uninitialisedRead) := by
  obtain ⟨items, last, w1, w2, w3⟩ := tokenize_ok_inv m s st h
  have hst : st = TokState.init.final items last := by
    have := tokenize_render m items last w1 w2
    rw [← w3, h] at this
    exact Except.ok.inj this
  have hh : Holds st (specElements 0 items last) := by
    have := holds_final items last TokState.init [] 0 atHead_init
    rw [← hst] at this
    simpa using this
  refine ⟨items, last, specElements 0 items last, w3, w1, w2, holds_elements st _ hh,
    specElements_length items last 0, ?_, ?_, ?_⟩
  · intro e he
    simp [NameElement.multivalued, specElements_head items last 0 e he]
  · intro i it e h1 h2
    have hf := specElements_succ items last 0 i it e h1 h2
    have hw := w1 it (List.getElem?_mem h1)
    have hs : it.sep = '/' ∨ (it.sep = '+' ∧ m = true) := by
      simp only [RawElement.wf, Bool.and_eq_true] at hw
      simpa [valueStop] using hw.2
    rcases hs with hs | hs
    · simp [NameElement.multivalued, hf, sepFlag, hs]
    · simp [NameElement.multivalued, hf, sepFlag, hs.1, hs.2]
  · intro lib chtype r hc
    simp only [parse_name, h] at hc
    rw [loop_eq_elements lib chtype st _ hh r] at hc
    cases hf : (visitOrder r (specElements 0 items last)).foldlM (addElem lib chtype) ([], 0) with
    | error err =>
      rw [hf] at hc
      have := foldlM_addElem_error lib chtype _ _ _ hf
      rw [this] at hc
      simp at hc
    | ok acc =>
      rw [hf] at hc
      obtain ⟨n, k⟩ := acc
      by_cases hk : k = 0 <;> simp [hk] at hc

/-- C6 at `/CN=A+OU=B/O=C` with multi-valued RDNs allowed. -/
theorem flag_placement_witness :
    ∃ st, tokenize true "/CN=A+OU=B/O=C".toList = .ok st ∧
      st.elements = some [⟨"CN".toList, "A".toList, 0⟩, ⟨"OU".toList, "B".toList, -1⟩,
        ⟨"O".toList, "C".toList, 0⟩] ∧
      ∃ (items : List RawElement) (last : Option RawLast) (es : List NameElement),
        "/CN=A+OU=B/O=C".toList = renderSubject items last ∧
          (∀ e ∈ items, RawElement.wf true e = true) ∧
          (∀ e, last = some e → RawLast.wf true e = true) ∧
          st.elements = some es ∧ es.length = items.length + last.toList.length ∧
          (∀ e, es[0]? = some e → e.multivalued = false) ∧
          (∀ i it e, items[i]? = some it → es[i + 1]? = some e →
            (e.multivalued = true ↔ (true = true ∧ it.sep = '+')) ∧
              (it.sep = '/' → e.multivalued = false)) ∧
          (∀ lib chtype r,
            parse_name lib "/CN=A+OU=B/O=C".toList chtype true r ≠ .error .uninitialisedRead) :=
  ⟨_, rfl, by decide, flag_placement true "/CN=A+OU=B/O=C".toList _ rfl⟩

/-- C11 (legacy order).  For every subject that tokenizes, into the elements
`es`, `parse_name` with `reverse = true` (the specification's
`legacy_order = true`) adds the surviving elements in parse order, unreversed,
each at position `-1` (the tail, never the head) with its own value and its
own `mval` flag: a name it returns is exactly that sequence of entries, and
when the primitive accepts every entry it returns that name, unless no element
survives, where it leaves with "no valuable field". -/
theorem parse_name_legacy_order (lib : OpenSSL) (s : List Char) (chtype : Int) (m : Bool)
    (es : List NameElement) (h : parsedElements m s = some es) :
    (∀ n, parse_name lib s chtype m true = .ok n →
        n = (es.filter (survives lib)).map
          (fun e => ⟨lib.OBJ_txt2nid e.type_label, chtype, e.value, -1, e.mval⟩)) ∧
      ((∀ n e, lib.add_entry_ok n e = true) →
        parse_name lib s chtype m true =
          if es.filter (survives lib) = [] then .error .noValuableField
          else .ok ((es.filter (survives lib)).map
            (fun e => ⟨lib.OBJ_txt2nid e.type_label, chtype, e.value, -1, e.mval⟩))) := by
  constructor
  · intro n hn
    rw [parse_name_ok_inv lib s chtype m true es h n hn]
    rfl
  · intro hok
    rw [parse_name_of_parsed lib s chtype m true es h hok]
    rfl

/-- C11 at `/CN=Alice/O=Org`: the entries are added in the order `CN=Alice`,
`O=Org`. -/
theorem parse_name_legacy_order_witness :
    parsedElements false "/CN=Alice/O=Org".toList =
        some [⟨"CN".toList, "Alice".toList, 0⟩, ⟨"O".toList, "Org".toList, 0⟩] ∧
      (∀ n e, sampleLib.add_entry_ok n e = true) ∧
      parse_name sampleLib "/CN=Alice/O=Org".toList MBSTRING_UTF8 false true =
        .ok [⟨13, MBSTRING_UTF8, "Alice".toList, -1, 0⟩, ⟨17, MBSTRING_UTF8, "Org".toList, -1, 0⟩] :=
  ⟨by decide, fun _ _ => rfl,
    ((parse_name_legacy_order sampleLib "/CN=Alice/O=Org".toList MBSTRING_UTF8 false
      [⟨"CN".toList, "Alice".toList, 0⟩, ⟨"O".toList, "Org".toList, 0⟩] (by decide)).2
      (fun _ _ => rfl)).trans (by decide)⟩

/-- C17 evaluated on the code.  On `/CN=A+OU=B` with multi-valued RDNs allowed
and `reverse = false`, the entry `OU=B`, which carries the join flag
(`set = -1`), is added first, into the empty name, and `CN=A` is added after
it; with `reverse = true` the order is `CN=A` then `OU=B`.  When the element
before the `+` is skipped (`XX` is unknown), the flagged entry is the first one
added in both orders. -/
theorem join_flag_insertion_order :
    parse_name sampleLib "/CN=A+OU=B".toList MBSTRING_UTF8 true false =
        .ok [⟨18, MBSTRING_UTF8, "B".toList, -1, -1⟩, ⟨13, MBSTRING_UTF8, "A".toList, -1, 0⟩] ∧
      parse_name sampleLib "/CN=A+OU=B".toList MBSTRING_UTF8 true true =
        .ok [⟨13, MBSTRING_UTF8, "A".toList, -1, 0⟩, ⟨18, MBSTRING_UTF8, "B".toList, -1, -1⟩] ∧
      parse_name sampleLib "/XX=A+OU=B".toList MBSTRING_UTF8 true false =
        .ok [⟨18, MBSTRING_UTF8, "B".toList, -1, -1⟩] ∧
      parse_name sampleLib "/XX=A+OU=B".toList MBSTRING_UTF8 true true =
        .ok [⟨18, MBSTRING_UTF8, "B".toList, -1, -1⟩] := by
  refine ⟨by decide, by decide, by decide, by decide⟩

/-- C18 as stated fails: the subject `/A/B=c` contains no backslash and
tokenizes, for both settings of `multirdn`, into one element whose type label
is `A/B`. -/
theorem slash_in_type_counterexample :
    '\\' ∉ "/A/B=c".toList ∧
      parsedElements false "/A/B=c".toList = some [⟨"A/B".toList, "c".toList, 0⟩] ∧
      parsedElements true "/A/B=c".toList = some [⟨"A/B".toList, "c".toList, 0⟩] ∧
      '/' ∈ "A/B".toList := by
  refine ⟨by decide, by decide, by decide, by decide⟩

/-- C18 (amended).  An unescaped `/` after the leading one ends the current
element when it occurs in a value field.  Every subject that tokenizes is the
text of raw elements whose parsed values are the unescaped raw values, and in
every raw value each `/` is escaped; so when the subject contains no backslash
at all, no parsed value contains a `/`.  (Type fields are left out: there `/`
is copied like any other character.) -/
theorem slash_ends_value (m : Bool) (s : List Char) (st : TokState)
    (h : tokenize m s = .ok st) :
    (∃ (items : List RawElement) (last : Option RawLast),
        s = renderSubject items last ∧ st.elements = some (specElements 0 items last) ∧
          (∀ e ∈ items, rawField isSlash e.value = true) ∧
          (∀ e, last = some e → rawField isSlash e.value = true)) ∧
      ('\\' ∉ s → ∀ es, st.elements = some es → ∀ e ∈ es, '/' ∉ e.value) := by
  obtain ⟨items, last, w1, w2, w3⟩ := tokenize_ok_inv m s st h
  have hst : st = TokState.init.final items last := by
    have := tokenize_render m items last w1 w2
    rw [← w3, h] at this
    exact Except.ok.inj this
  have hh : Holds st (specElements 0 items last) := by
    have := holds_final items last TokState.init [] 0 atHead_init
    rw [← hst] at this
    simpa using this
  have hel := holds_elements st _ hh
  have hmono : ∀ r, rawField (valueStop m) r = true → rawField isSlash r = true :=
    rawField_mono (valueStop m) isSlash (by intro c hc; simp [isSlash] at hc; simp [valueStop, hc])
  have r1 : ∀ e ∈ items, rawField isSlash e.value = true := by
    intro e he
    have hw := w1 e he
    simp only [RawElement.wf, Bool.and_eq_true] at hw
    exact hmono _ hw.1.2
  have r2 : ∀ e, last = some e → rawField isSlash e.value = true := by
    intro e he
    have hw := w2 e he
    simp only [RawLast.wf, Bool.and_eq_true] at hw
    exact hmono _ hw.1.2
  refine ⟨⟨items, last, w3, hel, r1, r2⟩, ?_⟩
  intro hb es hes e he hslash
  rw [hel] at hes
  have hes' : specElements 0 items last = es := Option.some.inj hes
  rw [← hes'] at he
  have hsub := value_subset_render items last
  have key : ∀ rv : List Char, (∀ c ∈ rv, c ∈ s) → rawField isSlash rv = true →
      e.value = unescape rv → False := by
    intro rv hin hraw hv
    have hnb : '\\' ∉ rv := fun hh => hb (hin _ hh)
    rw [hv, unescape_of_no_backslash rv hnb] at hslash
    have := rawField_no_backslash isSlash rv hnb hraw '/' hslash
    simp [isSlash] at this
  rcases specElements_value items last 0 e he with ⟨x, hx, hv⟩ | ⟨l, hl, hv⟩
  · exact key x.value (fun c hc => by rw [w3]; exact hsub.1 x hx c hc) (r1 x hx) hv
  · exact key l.value (fun c hc => by rw [w3]; exact hsub.2 l hl c hc) (r2 l hl) hv

/-- C18 (amended) at `/CN=A\/B/O=C`: the escaped `/` stays in the value, the
unescaped one separates the two elements. -/
theorem slash_ends_value_witness :
    ∃ st, tokenize false "/CN=A\\/B/O=C".toList = .ok st ∧
      st.elements = some [⟨"CN".toList, "A/B".toList, 0⟩, ⟨"O".toList, "C".toList, 0⟩] ∧
      ((∃ (items : List RawElement) (last : Option RawLast),
          "/CN=A\\/B/O=C".toList = renderSubject items last ∧
            st.elements = some (specElements 0 items last) ∧
            (∀ e ∈ items, rawField isSlash e.value = true) ∧
            (∀ e, last = some e → rawField isSlash e.value = true)) ∧
        ('\\' ∉ "/CN=A\\/B/O=C".toList → ∀ es, st.elements = some es →
          ∀ e ∈ es, '/' ∉ e.value)) :=
  ⟨_, rfl, by decide, slash_ends_value false "/CN=A\\/B/O=C".toList _ rfl⟩

/-- C19 (copy-buffer bound).  For every subject, of length `L`, and both
settings of `multirdn`, the number of bytes written into the copy buffer when
the tokenizing loop is left, on the error paths as well, is at most `L`, hence
below the allocated size `buflen = L+1`. -/
theorem copy_buffer_bound (m : Bool) (s : List Char) :
    (finalState (tokenize m s)).bp ≤ s.length ∧
      (finalState (tokenize m s)).bp < buflen s.length := by
  have h : (finalState (tokenize m s)).bp ≤ s.length := by
    cases s with
    | nil => simp [tokenize, finalState, TokState.blank]
    | cons c sp =>
      by_cases hc : c = '/'
      · subst hc
        rw [tokenize_slash]
        have := finalState_nameLoop_bp m sp (collect_bp m sp).1 TokState.init
        simp only [TokState.init, List.length_cons] at this ⊢
        omega
      · simp [tokenize, hc, finalState, TokState.blank]
  exact ⟨h, by simp only [buflen]; omega⟩

/-- C20 (element-count bound).  For every subject, of length `L`, when the
tokenizing loop is left (on the error paths as well): twice the number `ne_num`
of completed elements is at most `L-1`; the index `ne_num` of the cells of
`ne_types` and `ne_values` in use is below `max_ne`; and the cells written in
the three arrays, the look-ahead write `mval[ne_num+1]` included, all have
indices below `max_ne = (L+1)/2 + 1`. -/
theorem element_count_bound (m : Bool) (s : List Char) :
    2 * (finalState (tokenize m s)).ne_num ≤ s.length - 1 ∧
      (finalState (tokenize m s)).ne_num < max_ne s.length ∧
      (finalState (tokenize m s)).ne_types.length ≤ max_ne s.length ∧
      (finalState (tokenize m s)).ne_values.length ≤ max_ne s.length ∧
      (finalState (tokenize m s)).mval.length ≤ max_ne s.length := by
  have key : InValue (finalState (tokenize m s)) ∧
      2 * (finalState (tokenize m s)).ne_num ≤ s.length - 1 := by
    cases s with
    | nil => simp [tokenize, finalState, TokState.blank, InValue]
    | cons c sp =>
      by_cases hc : c = '/'
      · subst hc
        rw [tokenize_slash]
        have h0 : InType TokState.init := by simp [InType, TokState.init, writeAt]
        have := nameLoop_idx_of m sp (collect_idx m sp).1 TokState.init h0
        refine ⟨this.1, ?_⟩
        have h2 := this.2
        simp only [TokState.init, List.length_cons] at h2 ⊢
        omega
      · simp [tokenize, hc, finalState, TokState.blank, InValue]
  obtain ⟨⟨h1, h2, h3⟩, h4⟩ := key
  simp only [max_ne, buflen]
  refine ⟨h4, ?_, ?_, ?_, ?_⟩ <;> omega

/-- C16 (resource discipline of the EC builder).  For every library behaviour
and every attribute list, hence on every exit path of `pkcs11_SPKI_from_EC`:
each of the EC key object, the group, the point and the octet-string container
is created at most once, and what is created is disposed of exactly once: it is
freed at `err:`, or freed by the call it was passed to, or moved.  Only the
container is ever freed by a call (by `d2i_ASN1_OCTET_STRING` when it fails),
and then the builder reports an OpenSSL error and `err:` does not free it
again; the group, the point and the container are never moved; the EC key
object is moved exactly when the builder completes, and then it is inside the
key that is returned; `ec_parameters` is never created nor freed.  (The
container `pk` is never freed by the builder: it is returned whenever it was
created.) -/
theorem ec_resources_balanced (lib : Crypto) (attrlist : pkcs11AttrList) :
    (∀ o ∈ [Obj.ec, Obj.ec_group, Obj.ec_point, Obj.ec_point_container, Obj.ec_parameters],
        (pkcs11_SPKI_from_EC lib attrlist).log.count (.acquire o) ≤ 1 ∧
        (pkcs11_SPKI_from_EC lib attrlist).log.count (.acquire o) =
          (pkcs11_SPKI_from_EC lib attrlist).log.count (.release o) +
            (pkcs11_SPKI_from_EC lib attrlist).log.count (.freedByCallee o) +
            (pkcs11_SPKI_from_EC lib attrlist).log.count (.moved o)) ∧
      (∀ o ∈ [Obj.ec_group, Obj.ec_point, Obj.ec_point_container, Obj.ec_parameters],
        (pkcs11_SPKI_from_EC lib attrlist).log.count (.moved o) = 0) ∧
      (∀ o ∈ [Obj.ec, Obj.ec_group, Obj.ec_point, Obj.ec_parameters],
        (pkcs11_SPKI_from_EC lib attrlist).log.count (.freedByCallee o) = 0) ∧
      ((pkcs11_SPKI_from_EC lib attrlist).log.count (.freedByCallee .ec_point_container) ≠ 0 →
        (pkcs11_SPKI_from_EC lib attrlist).exit = .opensslError ∧
          (pkcs11_SPKI_from_EC lib attrlist).log.count (.release .ec_point_container) = 0) ∧
      ((pkcs11_SPKI_from_EC lib attrlist).log.count (.moved .ec) ≠ 0 ↔
        (pkcs11_SPKI_from_EC lib attrlist).exit = .completed) ∧
      ((pkcs11_SPKI_from_EC lib attrlist).exit = .completed →
        ∃ k, (pkcs11_SPKI_from_EC lib attrlist).pk = some (.ec k)) ∧
      (pkcs11_SPKI_from_EC lib attrlist).log.count (.release .pk) = 0 ∧
      ((pkcs11_SPKI_from_EC lib attrlist).log.count (.acquire .pk) = 1 ↔
        (pkcs11_SPKI_from_EC lib attrlist).pk ≠ none) := by
  generalize hr : pkcs11_SPKI_from_EC lib attrlist = r
  simp only [pkcs11_SPKI_from_EC, ec_steps] at hr
  repeat' split at hr
  all_goals
    subst hr
    dsimp only [releaseIf]
    refine ⟨by decide, by decide, by decide, by decide, by decide, ?_, by decide, ?_⟩
    · first
        | exact fun _ => ⟨_, rfl⟩
        | (intro h; exact absurd h (by decide))
    · first
        | decide
        | (constructor <;> intro _ <;> first | decide | exact Option.some_ne_none _)

/-- The builder on the toy library when the outer octet string of
`CKA_EC_POINT` is malformed (tag 5): the container is freed by the failing
decoder, and `err:` frees the EC key object, the group and the point. -/
theorem ec_malformed_wrapper_trace :
    pkcs11_SPKI_from_EC sampleCrypto
        (attrsOf [(.CKA_EC_PARAMS, prime256v1_oid), (.CKA_EC_POINT, [5, 0])]) =
      ⟨some .empty, .opensslError,
        [.acquire .ec, .acquire .ec_group, .acquire .ec_point, .acquire .pk,
          .acquire .ec_point_container, .freedByCallee .ec_point_container, .release .ec,
          .release .ec_group, .release .ec_point]⟩ := by
  decide

/-- C12 evaluated on the code.  When both attributes are present, every
allocation succeeds, `EC_PARAMS` decodes to a group and is accepted by the key
object, and `EC_POINT` fails to decode (its outer octet string is malformed, or
its octets are not a point of the group), `pkcs11_SPKI_from_EC` reports an
OpenSSL error (`DecodeError`) and returns the container allocated at line 531,
still empty, not `NULL`. -/
theorem ec_point_failure_returns_container (lib : Crypto) (attrlist : pkcs11AttrList)
    (params point : List Nat) (g : Nat)
    (h1 : attrlist.pkcs11_attrlist_has_attribute .CKA_EC_PARAMS = true)
    (h2 : attrlist.pkcs11_attrlist_has_attribute .CKA_EC_POINT = true)
    (hnew : ∀ o, lib.new_ok o = true)
    (h3 : attrlist.pkcs11_get_attr_in_attrlist .CKA_EC_PARAMS = some params)
    (h4 : lib.d2i_ECPKParameters params = some g)
    (h5 : lib.EC_KEY_set_group_ok = true)
    (h6 : attrlist.pkcs11_get_attr_in_attrlist .CKA_EC_POINT = some point)
    (h7 : lib.d2i_ASN1_OCTET_STRING point = none ∨
      ∃ octets, lib.d2i_ASN1_OCTET_STRING point = some octets ∧
        lib.EC_POINT_oct2point g octets = none) :
    (pkcs11_SPKI_from_EC lib attrlist).pk = some .empty ∧
      (pkcs11_SPKI_from_EC lib attrlist).exit = .opensslError ∧
      BuildExit.kind .opensslError = some KeyBuildError.DecodeError := by
  rcases h7 with h7 | ⟨octets, h7, h8⟩
  · simp [pkcs11_SPKI_from_EC, ec_steps, h1, h2, hnew, h3, h4, h5, h6, h7, BuildExit.kind]
  · simp [pkcs11_SPKI_from_EC, ec_steps, h1, h2, hnew, h3, h4, h5, h6, h7, h8, BuildExit.kind]

/-- C12 on the toy library, with the parameters of `prime256v1` and a point
attribute whose octets `4, 9, 9` are not a point of the group: the builder
hands back an empty container. -/
theorem ec_point_failure_returns_container_witness :
    pkcs11_SPKI_from_EC sampleCrypto
        (attrsOf [(.CKA_EC_PARAMS, prime256v1_oid), (.CKA_EC_POINT, [4, 3, 4, 9, 9])]) =
      ⟨some .empty, .opensslError,
        [.acquire .ec, .acquire .ec_group, .acquire .ec_point, .acquire .pk,
          .acquire .ec_point_container, .release .ec, .release .ec_point_container,
          .release .ec_group, .release .ec_point]⟩ ∧
      (pkcs11_SPKI_from_EC sampleCrypto
        (attrsOf [(.CKA_EC_PARAMS, prime256v1_oid), (.CKA_EC_POINT, [4, 3, 4, 9, 9])])).pk =
          some .empty :=
  ⟨by decide,
    (ec_point_failure_returns_container sampleCrypto
      (attrsOf [(.CKA_EC_PARAMS, prime256v1_oid), (.CKA_EC_POINT, [4, 3, 4, 9, 9])])
      prime256v1_oid [4, 3, 4, 9, 9] 415 (by decide) (by decide) (fun _ => rfl) (by decide)
      (by decide) (by decide) (by decide) (Or.inr ⟨[4, 9, 9], by decide, by decide⟩)).1⟩

/-- C13 evaluated on the code.  When both attributes are present and the RSA
object and the container are allocated, a failure of the conversion of the
modulus, of the conversion of the exponent, or of the final assignment makes
`pkcs11_SPKI_from_RSA` report an OpenSSL error and return the container
allocated at line 335, still empty, not `NULL`. -/
theorem rsa_failure_returns_container (lib : Crypto) (attrlist : pkcs11AttrList)
    (modulus exponent : List Nat)
    (h1 : attrlist.pkcs11_attrlist_has_attribute .CKA_MODULUS = true)
    (h2 : attrlist.pkcs11_attrlist_has_attribute .CKA_PUBLIC_EXPONENT = true)
    (h3 : lib.new_ok .rsa = true) (h4 : lib.new_ok .pk = true)
    (h5 : attrlist.pkcs11_get_attr_in_attrlist .CKA_MODULUS = some modulus)
    (h6 : attrlist.pkcs11_get_attr_in_attrlist .CKA_PUBLIC_EXPONENT = some exponent)
    (h7 : lib.new_ok .bn_modulus = false ∨ lib.new_ok .bn_exponent = false ∨
      lib.EVP_PKEY_assign_ok = false) :
    (pkcs11_SPKI_from_RSA lib attrlist).pk = some .empty ∧
      (pkcs11_SPKI_from_RSA lib attrlist).exit = .opensslError := by
  by_cases c1 : lib.new_ok .bn_modulus = true
  · by_cases c2 : lib.new_ok .bn_exponent = true
    · have c3 : lib.EVP_PKEY_assign_ok = false := by
        rcases h7 with h | h | h
        · rw [c1] at h; simp at h
        · rw [c2] at h; simp at h
        · exact h
      simp [pkcs11_SPKI_from_RSA, rsa_steps, h1, h2, h3, h4, h5, h6, c1, c2, c3, BN_bin2bn,
        RSA_set0_key]
    · simp [pkcs11_SPKI_from_RSA, rsa_steps, h1, h2, h3, h4, h5, h6, c1, c2, BN_bin2bn]
  · simp [pkcs11_SPKI_from_RSA, rsa_steps, h1, h2, h3, h4, h5, c1, BN_bin2bn]

/-- C13 on the toy library with a failing conversion of the exponent. -/
theorem rsa_failure_returns_container_witness :
    pkcs11_SPKI_from_RSA (sampleCryptoFailing .bn_exponent)
        (attrsOf [(.CKA_MODULUS, [1, 0, 1]), (.CKA_PUBLIC_EXPONENT, [1, 0, 1])]) =
      ⟨some .empty, .opensslError,
        [.acquire .rsa, .acquire .pk, .acquire .bn_modulus, .release .bn_modulus,
          .release .rsa]⟩ ∧
      (pkcs11_SPKI_from_RSA (sampleCryptoFailing .bn_exponent)
        (attrsOf [(.CKA_MODULUS, [1, 0, 1]), (.CKA_PUBLIC_EXPONENT, [1, 0, 1])])).pk =
          some .empty :=
  ⟨by decide,
    (rsa_failure_returns_container (sampleCryptoFailing .bn_exponent)
      (attrsOf [(.CKA_MODULUS, [1, 0, 1]), (.CKA_PUBLIC_EXPONENT, [1, 0, 1])])
      [1, 0, 1] [1, 0, 1] (by decide) (by decide) (by decide) (by decide) (by decide)
      (by decide) (Or.inr (Or.inl (by decide)))).1⟩

/-- C14 (missing RSA attribute).  When `CKA_MODULUS` or `CKA_PUBLIC_EXPONENT`
is absent, `pkcs11_SPKI_from_RSA` leaves at line 326 with the "missing
attributes" message (`MissingAttribute`): it returns `NULL`, and nothing was
created, neither the container nor the RSA object. -/
theorem rsa_missing_attribute (lib : Crypto) (attrlist : pkcs11AttrList)
    (h : attrlist.pkcs11_attrlist_has_attribute .CKA_MODULUS = false ∨
      attrlist.pkcs11_attrlist_has_attribute .CKA_PUBLIC_EXPONENT = false) :
    pkcs11_SPKI_from_RSA lib attrlist = ⟨none, .missingAttributes, []⟩ ∧
      BuildExit.kind .missingAttributes = some KeyBuildError.MissingAttribute := by
  refine ⟨?_, rfl⟩
  simp [pkcs11_SPKI_from_RSA, rsa_steps, h, releaseIf]

/-- C14 on an attribute list that has a modulus and no public exponent. -/
theorem rsa_missing_attribute_witness :
    (attrsOf [(.CKA_MODULUS, [1, 0, 1])]).pkcs11_attrlist_has_attribute .CKA_PUBLIC_EXPONENT =
        false ∧
      pkcs11_SPKI_from_RSA sampleCrypto (attrsOf [(.CKA_MODULUS, [1, 0, 1])]) =
        ⟨none, .missingAttributes, []⟩ :=
  ⟨by decide,
    (rsa_missing_attribute sampleCrypto (attrsOf [(.CKA_MODULUS, [1, 0, 1])])
      (Or.inr (by decide))).1⟩

/-- C15 (DSA fields).  When the four attributes are present and every OpenSSL
call succeeds, `pkcs11_SPKI_from_DSA` returns a DSA key whose prime, subprime,
base and public value are the unsigned big-endian integers of the `CKA_PRIME`,
`CKA_SUBPRIME`, `CKA_BASE` and `CKA_VALUE` buffers, in this order, and whose
private value is absent. -/
theorem dsa_fields (lib : Crypto) (attrlist : pkcs11AttrList)
    (prime subprime base value : List Nat)
    (h1 : attrlist.pkcs11_attrlist_has_attribute .CKA_PRIME = true)
    (h2 : attrlist.pkcs11_attrlist_has_attribute .CKA_SUBPRIME = true)
    (h3 : attrlist.pkcs11_attrlist_has_attribute .CKA_BASE = true)
    (h4 : attrlist.pkcs11_attrlist_has_attribute .CKA_VALUE = true)
    (g1 : attrlist.pkcs11_get_attr_in_attrlist .CKA_PRIME = some prime)
    (g2 : attrlist.pkcs11_get_attr_in_attrlist .CKA_SUBPRIME = some subprime)
    (g3 : attrlist.pkcs11_get_attr_in_attrlist .CKA_BASE = some base)
    (g4 : attrlist.pkcs11_get_attr_in_attrlist .CKA_VALUE = some value)
    (hnew : ∀ o, lib.new_ok o = true) (hassign : lib.EVP_PKEY_assign_ok = true) :
    (pkcs11_SPKI_from_DSA lib attrlist).pk =
        some (.dsa ⟨some (bigEndian prime), some (bigEndian subprime), some (bigEndian base),
          some (bigEndian value), none⟩) ∧
      (pkcs11_SPKI_from_DSA lib attrlist).exit = .completed := by
  simp [pkcs11_SPKI_from_DSA, dsa_steps, h1, h2, h3, h4, g1, g2, g3, g4, hnew, hassign,
    BN_bin2bn, DSA_set0_pqg, DSA_set0_key, DSA.new]

/-- C15 on the toy library with four distinct buffers. -/
theorem dsa_fields_witness :
    pkcs11_SPKI_from_DSA sampleCrypto
        (attrsOf [(.CKA_VALUE, [7]), (.CKA_BASE, [2]), (.CKA_SUBPRIME, [11]),
          (.CKA_PRIME, [1, 3])]) =
      ⟨some (.dsa ⟨some 259, some 11, some 2, some 7, none⟩), .completed,
        [.acquire .dsa, .acquire .pk, .acquire .bn_prime, .acquire .bn_subprime,
          .acquire .bn_base, .acquire .bn_pubkey, .moved .bn_prime, .moved .bn_subprime,
          .moved .bn_base, .moved .bn_pubkey, .moved .dsa]⟩ ∧
      (pkcs11_SPKI_from_DSA sampleCrypto
        (attrsOf [(.CKA_VALUE, [7]), (.CKA_BASE, [2]), (.CKA_SUBPRIME, [11]),
          (.CKA_PRIME, [1, 3])])).pk =
        some (.dsa ⟨some (bigEndian [1, 3]), some (bigEndian [11]), some (bigEndian [2]),
          some (bigEndian [7]), none⟩) :=
  ⟨by decide,
    (dsa_fields sampleCrypto
      (attrsOf [(.CKA_VALUE, [7]), (.CKA_BASE, [2]), (.CKA_SUBPRIME, [11]),
        (.CKA_PRIME, [1, 3])])
      [1, 3] [11] [2] [7] (by decide) (by decide) (by decide) (by decide) (by decide)
      (by decide) (by decide) (by decide) (fun _ => rfl) rfl).1⟩

end Pkcs11
